import Mathlib

/-!
Dense square matrices and the fixed expression `A = B·C³ + Tr(C)·I + C + Tr(B)·E`

A shallow embedding of `src/main.cpp`.

* `std::vector<std::vector<double>>` is a `List (List α)`.  The kernels are
  written over any cell type `α` with `0`, `1`, `+` and `*` and assume no law
  of arithmetic.  Properties of exact arithmetic are stated for `α` a
  commutative ring (rounding is outside the embedding); `Dbl β` is a cell type
  that keeps the infinities and NaN of `double`, with finite values exact.
* `int size` is a `Nat`: a negative argument makes the `std::vector`
  constructor throw before a `Matrix` object exists.
* `throw std::invalid_argument(..)` is `Except.error (Exn.invalid_argument ..)`.
* `const` member functions are pure functions of the receiver and the
  argument.  A mutating member function returns the pair of its result and the
  final state of the receiver, so that the state after a `throw` is visible.
* `for (int i = 0; i < n; ++i) body` is `forLoop n body`, a left fold over
  `0, 1, .., n-1` threading the mutated state.
* `data[i][j]` is `getCell data i j` (read) and `setCell data i j v` (write).
  Indexing outside the vectors is undefined behaviour in C++; it cannot occur
  on a well-formed matrix (`Matrix.WF`), where the embedding reads `0` and
  ignores the write.
* The process-wide `COMPUTATION_TYPE` is the explicit argument `ct` of every
  kernel, and `branch ct` is the arm of `if (COMPUTATION_TYPE == 1)` it selects.
  An OpenMP work-sharing loop runs its row iterations in an order the runtime
  chooses; the `_sched` variant of a kernel takes that order as a list of row
  indices, and the kernel itself is the program order `0, .., size-1`.
* The sources of randomness are parameters: `rand k` is what call number `k` of
  the C library `rand()` returns, `dis k` draw number `k` of a generator.
* The function `main` returns `Except.ok` of its exit code and output when it
  returns, and `Except.error` when an exception leaves it uncaught; the library
  function `std::stoi` is modelled after the C++ standard.
-/

namespace Hpc

/-- The exceptions of the program: `std::invalid_argument`, thrown by the binary
operations and by `std::stoi`, and `std::out_of_range`, thrown by `std::stoi`. -/
inductive Exn where
  | invalid_argument (what : String)
  | out_of_range (what : String)
deriving DecidableEq

/-- The text carried by every size check of `main.cpp`. -/
def sizeMismatch : Exn := Exn.invalid_argument "Matrix sizes do not match"

/-- Storage of a matrix: `std::vector<std::vector<double>>`. -/
abbrev Cells (α : Type) := List (List α)

/-- Read of `data[i][j]`. -/
def getCell {α : Type} [Zero α] (data : Cells α) (i j : Nat) : α :=
  (data.getD i []).getD j 0

/-- Write `data[i][j] = v`. -/
def setCell {α : Type} (data : Cells α) (i j : Nat) (v : α) : Cells α :=
  data.set i ((data.getD i []).set j v)

/-- A model of `double` that keeps the special values of IEEE 754: a finite
value, held exactly in `β` (no rounding, no overflow, no signed zero), the two
infinities and NaN. -/
inductive Dbl (β : Type) where
  | fin (x : β)
  | pinf
  | ninf
  | nan
deriving DecidableEq

/-- IEEE 754 addition: NaN absorbs, opposite infinities give NaN, an infinity
absorbs a finite value, finite values add in `β`. -/
def Dbl.add {β : Type} [LinearOrderedCommRing β] : Dbl β → Dbl β → Dbl β
  | Dbl.nan, _ => Dbl.nan
  | _, Dbl.nan => Dbl.nan
  | Dbl.pinf, Dbl.ninf => Dbl.nan
  | Dbl.ninf, Dbl.pinf => Dbl.nan
  | Dbl.pinf, _ => Dbl.pinf
  | Dbl.ninf, _ => Dbl.ninf
  | _, Dbl.pinf => Dbl.pinf
  | _, Dbl.ninf => Dbl.ninf
  | Dbl.fin a, Dbl.fin b => Dbl.fin (a + b)

/-- The product of `+inf` and the finite value `x`: NaN for `x = 0`, else the
infinity with the sign of `x`. -/
def Dbl.infTimes {β : Type} [LinearOrderedCommRing β] (x : β) : Dbl β :=
  if x = 0 then Dbl.nan else if 0 < x then Dbl.pinf else Dbl.ninf

/-- The product of `-inf` and the finite value `x`. -/
def Dbl.ninfTimes {β : Type} [LinearOrderedCommRing β] (x : β) : Dbl β :=
  if x = 0 then Dbl.nan else if 0 < x then Dbl.ninf else Dbl.pinf

/-- IEEE 754 multiplication: NaN absorbs, `0 * inf` is NaN, infinities multiply
by sign, finite values multiply in `β`. -/
def Dbl.mul {β : Type} [LinearOrderedCommRing β] : Dbl β → Dbl β → Dbl β
  | Dbl.nan, _ => Dbl.nan
  | _, Dbl.nan => Dbl.nan
  | Dbl.pinf, Dbl.pinf => Dbl.pinf
  | Dbl.pinf, Dbl.ninf => Dbl.ninf
  | Dbl.ninf, Dbl.pinf => Dbl.ninf
  | Dbl.ninf, Dbl.ninf => Dbl.pinf
  | Dbl.pinf, Dbl.fin x => Dbl.infTimes x
  | Dbl.ninf, Dbl.fin x => Dbl.ninfTimes x
  | Dbl.fin x, Dbl.pinf => Dbl.infTimes x
  | Dbl.fin x, Dbl.ninf => Dbl.ninfTimes x
  | Dbl.fin a, Dbl.fin b => Dbl.fin (a * b)

/-- Test for a finite value: neither an infinity nor NaN. -/
def Dbl.isFinite {β : Type} : Dbl β → Bool
  | Dbl.fin _ => true
  | _ => false

/-- The finite value held, `0` for an infinity or NaN. -/
def Dbl.value {β : Type} [Zero β] : Dbl β → β
  | Dbl.fin x => x
  | _ => 0

instance {β : Type} [LinearOrderedCommRing β] : Zero (Dbl β) := ⟨Dbl.fin 0⟩

instance {β : Type} [LinearOrderedCommRing β] : One (Dbl β) := ⟨Dbl.fin 1⟩

instance {β : Type} [LinearOrderedCommRing β] : Add (Dbl β) := ⟨Dbl.add⟩

instance {β : Type} [LinearOrderedCommRing β] : Mul (Dbl β) := ⟨Dbl.mul⟩

instance {β : Type} [LinearOrderedCommRing β] : NatCast (Dbl β) := ⟨fun n => Dbl.fin (n : β)⟩

/-- The counted loop `for (int i = 0; i < n; ++i) body(i)` over a state. -/
def forLoop {σ : Type} (n : Nat) (body : Nat → σ → σ) (s : σ) : σ :=
  (List.range n).foldl (fun s i => body i s) s

/-- The same loop body run over the row indices in the order `rows`. -/
def forRows {σ : Type} (rows : List Nat) (body : Nat → σ → σ) (s : σ) : σ :=
  rows.foldl (fun s i => body i s) s

/-- The two arms of the `if (COMPUTATION_TYPE == 1) .. else ..` found in every
kernel: the `omp for` work-sharing loop and the `taskloop` inside
`single`/`taskgroup`. -/
inductive Branch where
  | omp_for
  | taskloop
deriving DecidableEq

/-- The arm selected by the value of `COMPUTATION_TYPE`. -/
def branch (ct : Int) : Branch :=
  if ct = 1 then Branch.omp_for else Branch.taskloop

/-- The `class Matrix`: its private fields `size` and `data`. -/
structure Matrix (α : Type) where
  size : Nat
  data : Cells α
deriving DecidableEq

namespace Matrix

variable {α : Type}

/-- Constructor `explicit Matrix()`: order 0, no cells. -/
def empty : Matrix α := ⟨0, []⟩

/-- Constructor `explicit Matrix(int size)`: zero-filled. -/
def create [Zero α] (size : Nat) : Matrix α :=
  ⟨size, List.replicate size (List.replicate size 0)⟩

/-- Constructor `explicit Matrix(int size, double default_value)`. -/
def createFilled (size : Nat) (default_value : α) : Matrix α :=
  ⟨size, List.replicate size (List.replicate size default_value)⟩

/-- Well-formedness: `data` holds `size` rows of `size` values each. -/
def WF (m : Matrix α) : Prop :=
  m.data.length = m.size ∧ ∀ row ∈ m.data, row.length = m.size

instance (m : Matrix α) : Decidable m.WF := by
  unfold WF; infer_instance

/-- Member `get_size()`. -/
def get_size (m : Matrix α) : Nat := m.size

/-- Member `operator=`: the receiver takes the order and the cells of `other`
(on self-assignment it keeps its own, which are those of `other`). -/
def assign (_self other : Matrix α) : Matrix α :=
  ⟨other.size, other.data⟩

variable [Zero α] [One α] [Add α] [Mul α]

/-- Member `operator+` (const): a fresh `result(size)` filled cell by cell. -/
def op_add (self other : Matrix α) : Except Exn (Matrix α) :=
  if self.size ≠ other.size then
    Except.error sizeMismatch
  else
    let result : Matrix α := create self.size
    Except.ok { result with
      data := forLoop self.size (fun i d =>
        forLoop self.size (fun j d =>
          setCell d i j (getCell self.data i j + getCell other.data i j)) d) result.data }

/-- Member `operator+=`: returns nothing; the second component is the receiver after
the call. -/
def op_add_assign (self other : Matrix α) : Except Exn Unit × Matrix α :=
  if self.size ≠ other.size then
    (Except.error sizeMismatch, self)
  else
    let self1 : Matrix α := { self with
      data := forLoop self.size (fun i d =>
        forLoop self.size (fun j d =>
          setCell d i j (getCell d i j + getCell other.data i j)) d) self.data }
    (Except.ok (), self1)

/-- Member `randomize()`: every cell takes the next draw `dis(gen)` of the
generator the call creates; `dis k` is its draw number `k`. -/
def randomize (dis : Nat → α) (self : Matrix α) : Matrix α :=
  let st : Cells α × Nat :=
    forLoop self.size (fun i st =>
      forLoop self.size (fun j st => (setCell st.1 i j (dis st.2), st.2 + 1)) st)
      (self.data, 0)
  { self with data := st.1 }

/-- Member `randomize_int()`: every cell takes `rand() % size + 1`.  The value
`rand k` is what call number `k` of the C library `rand()` returns, `calls` the
number of calls made before; the result is the receiver after the call and the
number of calls made after it. -/
def randomize_int [NatCast α] (rand : Nat → Nat) (self : Matrix α) (calls : Nat) :
    Matrix α × Nat :=
  let st : Cells α × Nat :=
    forLoop self.size (fun i st =>
      forLoop self.size (fun j st =>
        (setCell st.1 i j ((rand st.2 % self.size + 1 : Nat) : α), st.2 + 1)) st)
      (self.data, calls)
  ({ self with data := st.1 }, st.2)

/-- Member `set_identity()`: the receiver after the call. -/
def set_identity (self : Matrix α) : Matrix α :=
  { self with
    data := forLoop self.size (fun i d =>
      forLoop self.size (fun j d =>
        setCell d i j (if i = j then 1 else 0)) d) self.data }

/-- Row work unit of `add`: the inner `j` loop for one value of `i`. -/
def add_row (other : Matrix α) (size i : Nat) (data : Cells α) : Cells α :=
  forLoop size (fun j d => setCell d i j (getCell d i j + getCell other.data i j)) data

/-- In-place `add`, with the row work units run in the order `rows`.  The
first component is the returned copy of `*this` (or the exception), the second
the receiver after the call. -/
def add_sched (ct : Int) (rows : List Nat) (self other : Matrix α) :
    Except Exn (Matrix α) × Matrix α :=
  if self.size ≠ other.size then
    (Except.error sizeMismatch, self)
  else
    let self1 : Matrix α :=
      match branch ct with
      | Branch.omp_for =>
        { self with data := forRows rows (fun i d => add_row other self.size i d) self.data }
      | Branch.taskloop =>
        { self with data := forRows rows (fun i d => add_row other self.size i d) self.data }
    (Except.ok self1, self1)

/-- In-place `Matrix add(const Matrix& other)` in program order. -/
def add (ct : Int) (self other : Matrix α) : Except Exn (Matrix α) × Matrix α :=
  add_sched ct (List.range self.size) self other

/-- Row work unit of `multiply(const Matrix&)`: for each `j` the inner product
accumulated in `sum` from `0`, then stored in `result.data[i][j]`. -/
def multiply_row (self other : Matrix α) (i : Nat) (rdata : Cells α) : Cells α :=
  forLoop self.size (fun j d =>
    let sum : α := forLoop self.size
      (fun k sum => sum + getCell self.data i k * getCell other.data k j) 0
    setCell d i j sum) rdata

/-- The matrix product `multiply(const Matrix& other) const`, row work units
run in the order `rows`. -/
def multiply_sched (ct : Int) (rows : List Nat) (self other : Matrix α) :
    Except Exn (Matrix α) :=
  if self.size ≠ other.size then
    Except.error sizeMismatch
  else
    let result : Matrix α := create self.size
    match branch ct with
    | Branch.omp_for =>
      Except.ok { result with
        data := forRows rows (fun i d => multiply_row self other i d) result.data }
    | Branch.taskloop =>
      Except.ok { result with
        data := forRows rows (fun i d => multiply_row self other i d) result.data }

/-- The matrix product `multiply(const Matrix& other) const` in program order. -/
def multiply (ct : Int) (self other : Matrix α) : Except Exn (Matrix α) :=
  multiply_sched ct (List.range self.size) self other

/-- Row work unit of `multiply(double)`. -/
def multiply_scalar_row (self : Matrix α) (number : α) (i : Nat) (rdata : Cells α) : Cells α :=
  forLoop self.size (fun j d => setCell d i j (number * getCell self.data i j)) rdata

/-- The scaling `multiply(double number) const`, row work units run in the
order `rows`. -/
def multiply_scalar_sched (ct : Int) (rows : List Nat) (self : Matrix α) (number : α) :
    Matrix α :=
  let result : Matrix α := create self.size
  match branch ct with
  | Branch.omp_for =>
    { result with
      data := forRows rows (fun i d => multiply_scalar_row self number i d) result.data }
  | Branch.taskloop =>
    { result with
      data := forRows rows (fun i d => multiply_scalar_row self number i d) result.data }

/-- The scaling `multiply(double number) const` in program order. -/
def multiply_scalar (ct : Int) (self : Matrix α) (number : α) : Matrix α :=
  multiply_scalar_sched ct (List.range self.size) self number

/-- Member `exp_matrix(int number) const`: `result = *this`, then one
`result = result.multiply(*this)` for each `times` in `1 .. number-1`. -/
def exp_matrix (ct : Int) (self : Matrix α) (number : Int) : Except Exn (Matrix α) :=
  (List.range' 1 (number - 1).toNat).foldlM
    (fun result _times => multiply ct result self) self

/-- Member `trace() const`: the diagonal summed from `0` in increasing index. -/
def trace (self : Matrix α) : α :=
  forLoop self.size (fun i trace => trace + getCell self.data i i) 0

end Matrix

/-- Function `calculate_expression(matrix_B, matrix_C)`: a `throw` inside leaves
through the `Except` monad; each in-place `add` updates the local `matrix_A`. -/
def calculate_expression {α : Type} [Zero α] [One α] [Add α] [Mul α] (ct : Int)
    (matrix_B matrix_C : Matrix α) :
    Except Exn (Matrix α) := do
  let mut matrix_A : Matrix α := Matrix.create matrix_B.get_size
  -- B * C^3
  let C3 ← matrix_C.exp_matrix ct 3
  matrix_A := Matrix.assign matrix_A (← matrix_B.multiply ct C3)
  -- Tr(C) * I
  let matrix_I : Matrix α := (Matrix.create matrix_C.get_size).set_identity
  let (r1, A1) := matrix_A.add ct (matrix_I.multiply_scalar ct matrix_C.trace)
  let _ ← r1
  matrix_A := A1
  -- C
  let (r2, A2) := matrix_A.add ct matrix_C
  let _ ← r2
  matrix_A := A2
  -- Tr(B) * E
  let matrix_E : Matrix α := Matrix.createFilled matrix_C.get_size 1
  let (r3, A3) := matrix_A.add ct (matrix_E.multiply_scalar ct matrix_B.trace)
  let _ ← r3
  matrix_A := A3
  return matrix_A

/-- Library function `std::stoi` (base 10), not part of the repository, after
the C++ standard: leading white space is skipped, then an optional sign and the
longest run of decimal digits are read and what follows is ignored; no digit
throws `std::invalid_argument`, a value outside `int` throws
`std::out_of_range`. -/
def stoi (str : String) : Except Exn Int :=
  let cs := str.toList.dropWhile (fun c => c.toNat = 32 ∨ (9 ≤ c.toNat ∧ c.toNat ≤ 13))
  let negative : Bool := decide (cs.head?.map Char.toNat = some 45)
  let cs := if cs.head?.map Char.toNat = some 45 ∨ cs.head?.map Char.toNat = some 43
    then cs.tail else cs
  let digits := cs.takeWhile (fun c => 48 ≤ c.toNat ∧ c.toNat ≤ 57)
  if digits = [] then
    Except.error (Exn.invalid_argument "stoi")
  else
    let magnitude : Nat := digits.foldl (fun n c => 10 * n + (c.toNat - 48)) 0
    let value : Int := if negative then -(magnitude : Int) else (magnitude : Int)
    if value < -2147483648 ∨ 2147483647 < value then
      Except.error (Exn.out_of_range "stoi")
    else
      Except.ok value

/-- One item written to standard output by `main`: a label line, the `print()`
of a matrix, or the measured time `Time_1`. -/
inductive Out (α : Type) where
  | text (s : String)
  | print (m : Matrix α)
  | elapsed

/-- What a run of `main` that returns leaves behind: the exit code, the items
on standard output and the lines on standard error. -/
structure Run (α : Type) where
  exit_code : Int
  stdout : List (Out α)
  stderr : List String

/-- The print flag after `std::transform(.., ::tolower)` over its characters,
compared with `"true"` (lines 256 to 263). -/
def parse_print_flag (arg : String) : Bool :=
  let print_flag : List Char := arg.toList.map Char.toLower
  decide (print_flag = "true".toList)

/-- Function `main(argc, argv)` with `argv` the list of all arguments, the
program name first.  An exception that reaches the end of `main` uncaught is
`Except.error`.  The sources of randomness are parameters: `rand` for the C
library `rand()`, `dis_B` and `dis_C` for the generators of the two
`randomize()` calls. -/
def main {α : Type} [Zero α] [One α] [Add α] [Mul α] [NatCast α] (rand : Nat → Nat)
    (dis_B dis_C : Nat → α)
    (argv : List String) : Except Exn (Run α) :=
  if argv.length ≠ 5 then
    Except.ok ⟨1, [], ["Usage: " ++ argv.getD 0 "" ++
      " <matrix_size: int> <threads_count: int> <calculation_type: str> <full_print_mode: bool>"]⟩
  else
    match stoi (argv.getD 1 "") with
    | Except.error e => Except.error e
    | Except.ok matrix_size =>
      if matrix_size ≤ 0 ∨ matrix_size > 4096 then
        Except.ok ⟨1, [], ["Incorrect matrix size."]⟩
      else
        match stoi (argv.getD 2 "") with
        | Except.error e => Except.error e
        | Except.ok threads_count =>
          if threads_count ≤ 0 then
            Except.ok ⟨1, [], ["Incorrect threads count."]⟩
          else
            let calculation_type := argv.getD 3 ""
            if calculation_type ≠ "simple" ∧ calculation_type ≠ "tasks"
                ∧ calculation_type ≠ "sections" then
              Except.ok ⟨1, [], ["<calculation_type> one of: `simple`, `tasks`, `sections`"]⟩
            else
              let COMPUTATION_TYPE : Int :=
                if calculation_type = "simple" then 1
                else if calculation_type = "tasks" then 2
                else 3
              let do_print : Bool := parse_print_flag (argv.getD 4 "")
              let matrix_B : Matrix α := Matrix.create matrix_size.toNat
              let matrix_C : Matrix α := Matrix.create matrix_size.toNat
              let seeded : Matrix α × Matrix α :=
                if do_print then
                  let b := matrix_B.randomize_int rand 0
                  let c := matrix_C.randomize_int rand b.2
                  (b.1, c.1)
                else
                  (matrix_B.randomize dis_B, matrix_C.randomize dis_C)
              let matrix_A : Matrix α := Matrix.empty
              match calculate_expression COMPUTATION_TYPE seeded.1 seeded.2 with
              | Except.error e => Except.error e
              | Except.ok result =>
                let matrix_A := Matrix.assign matrix_A result
                if do_print then
                  Except.ok ⟨0,
                    [Out.text "Elements of the matrix B:", Out.print seeded.1,
                     Out.text "Elements of the matrix C:", Out.print seeded.2,
                     Out.text "Elements of the matrix A:", Out.print matrix_A,
                     Out.text "The time spent on the calculation: ", Out.elapsed], []⟩
                else
                  Except.ok ⟨0, [Out.elapsed], []⟩

/-! ## Definitions used to state and prove the properties -/

/-- The invariant as the data model words it: `order ≥ 1` and the cells fully
populated, `order` rows of `order` values. -/
def Matrix.Invariant {α : Type} (m : Matrix α) : Prop :=
  1 ≤ m.size ∧ m.WF

/-- Cell `(i, j)` of a matrix as a function of the indices. -/
def Matrix.cell {α : Type} [Zero α] (m : Matrix α) (i j : Nat) : α :=
  getCell m.data i j

/-- Entry `(i, j)` of the product of two order-`n` matrices given by their
entries: the sum over `k` in `[0, n)` of `f i k * g k j`. -/
def matProd {α : Type} [CommRing α] (n : Nat) (f g : Nat → Nat → α) (i j : Nat) : α :=
  ∑ k ∈ Finset.range n, f i k * g k j

/-- Sum of the diagonal entries `f i i` for `i` in `[0, n)`. -/
def diagSum {α : Type} [CommRing α] (n : Nat) (f : Nat → Nat → α) : α :=
  ∑ i ∈ Finset.range n, f i i

/-- One more product by `f`, `k` times over, starting from `f`: the entries of
`M·M·..·M` with `k + 1` factors, associated to the left. -/
def matPow {α : Type} [CommRing α] (n : Nat) (f : Nat → Nat → α) : Nat → Nat → Nat → α
  | 0 => f
  | k + 1 => matProd n (matPow n f k) f

/-- The `n` by `n` storage whose cell `(i, j)` is `f i j`. -/
def table {α : Type} (n : Nat) (f : Nat → Nat → α) : Cells α :=
  (List.range n).map (fun i => (List.range n).map (fun j => f i j))

/-- The loop `for (j = 0; j < m; ++j) l[j] = g(j, l[j])` over one vector. -/
def fillLoop {β : Type} (dflt : β) (m : Nat) (g : Nat → β → β) (l : List β) : List β :=
  forLoop m (fun j l => l.set j (g j (l.getD j dflt))) l

/-- Example operand `[[1,2],[3,4]]`. -/
def exB : Matrix Int := ⟨2, [[1, 2], [3, 4]]⟩

/-- Example operand `[[0,1],[1,1]]`. -/
def exC : Matrix Int := ⟨2, [[0, 1], [1, 1]]⟩

/-- Every stored cell of the matrix is finite. -/
def Matrix.allFinite {β : Type} (m : Matrix (Dbl β)) : Prop :=
  ∀ row ∈ m.data, ∀ c ∈ row, Dbl.isFinite c = true

instance {β : Type} [DecidableEq β] (m : Matrix (Dbl β)) : Decidable m.allFinite := by
  unfold Matrix.allFinite; infer_instance

/-- Example operand with finite cells in the model of `double`. -/
def exFin : Matrix (Dbl Int) :=
  ⟨2, [[Dbl.fin 1, Dbl.fin (-2)], [Dbl.fin 0, Dbl.fin 4]]⟩

/-- Example operand with an infinite cell: `[[1,2],[+inf,4]]`. -/
def exInf : Matrix (Dbl Int) :=
  ⟨2, [[Dbl.fin 1, Dbl.fin 2], [Dbl.pinf, Dbl.fin 4]]⟩

/-- Example operand of order 3. -/
def exD : Matrix Int := ⟨3, [[1, 2, 3], [4, 5, 6], [7, 8, 9]]⟩

/-! ## Loops and storage -/

theorem forLoop_zero {σ : Type} (body : Nat → σ → σ) (s : σ) : forLoop 0 body s = s := rfl

theorem forLoop_succ {σ : Type} (n : Nat) (body : Nat → σ → σ) (s : σ) :
    forLoop (n + 1) body s = body n (forLoop n body s) := by
  simp [forLoop, List.range_succ, List.foldl_append]

theorem forLoop_eq_forRows {σ : Type} (n : Nat) (body : Nat → σ → σ) (s : σ) :
    forLoop n body s = forRows (List.range n) body s := rfl

theorem fillLoop_succ {β : Type} (dflt : β) (m : Nat) (g : Nat → β → β) (l : List β) :
    fillLoop dflt (m + 1) g l
      = (fillLoop dflt m g l).set m (g m ((fillLoop dflt m g l).getD m dflt)) := by
  simp [fillLoop, forLoop_succ]

theorem fillLoop_getElem? {β : Type} (dflt : β) (g : Nat → β → β) (l : List β) (m b : Nat) :
    (fillLoop dflt m g l)[b]? = if b < m then l[b]?.map (g b) else l[b]? := by
  induction m with
  | zero => simp [fillLoop, forLoop_zero]
  | succ m ih =>
    rw [fillLoop_succ, List.getElem?_set]
    by_cases hmb : m = b
    · subst hmb
      have hR : (fillLoop dflt m g l)[m]? = l[m]? := by simpa using ih
      simp only [if_true, Nat.lt_succ_self]
      by_cases hlen : m < (fillLoop dflt m g l).length
      · have h1 := List.getElem?_eq_getElem hlen
        rw [if_pos hlen, List.getD_eq_getElem?_getD, ← hR, h1]
        simp
      · rw [if_neg hlen, ← hR, List.getElem?_eq_none (Nat.le_of_not_lt hlen)]
        simp
    · rw [if_neg hmb, ih]
      have : b < m + 1 ↔ b < m := by omega
      simp [this]

theorem fillLoop_length {β : Type} (dflt : β) (g : Nat → β → β) (l : List β) (m : Nat) :
    (fillLoop dflt m g l).length = l.length := by
  induction m with
  | zero => simp [fillLoop, forLoop_zero]
  | succ m ih => rw [fillLoop_succ, List.length_set, ih]

theorem set_getD_self {β : Type} (dflt : β) (l : List β) (i : Nat) :
    l.set i (l.getD i dflt) = l := by
  apply List.ext_getElem?
  intro n
  rw [List.getElem?_set]
  by_cases h : i = n
  · subst h
    by_cases hl : i < l.length
    · simp [hl, List.getD_eq_getElem?_getD, List.getElem?_eq_getElem hl]
    · simp [hl, List.getElem?_eq_none (Nat.le_of_not_lt hl)]
  · simp [h]

theorem getD_set_self {β : Type} (dflt : β) (l : List β) (i : Nat) (v : β) (h : i < l.length) :
    (l.set i v).getD i dflt = v := by
  simp [List.getD_eq_getElem?_getD, List.getElem?_set, h]

theorem getD_set_ne {β : Type} (dflt : β) (l : List β) (i k : Nat) (v : β) (h : i ≠ k) :
    (l.set i v).getD k dflt = l.getD k dflt := by
  simp [List.getD_eq_getElem?_getD, List.getElem?_set, h]

/-- The inner `j` loop of a kernel only replaces row `i`. -/
theorem cellLoop_eq {α : Type} [Zero α] (g : Nat → α → α) (i m : Nat) (d : Cells α) :
    forLoop m (fun j d => setCell d i j (g j (getCell d i j))) d
      = d.set i (fillLoop 0 m g (d.getD i [])) := by
  induction m with
  | zero => exact (set_getD_self [] d i).symm
  | succ m ih =>
    rw [forLoop_succ, ih, fillLoop_succ]
    by_cases hi : i < d.length
    · simp only [setCell, getCell]
      rw [getD_set_self [] d i _ hi, List.set_set]
    · have hle : d.length ≤ i := Nat.le_of_not_lt hi
      simp only [setCell, List.set_set]
      rw [List.set_eq_of_length_le hle, List.set_eq_of_length_le hle]

theorem rowLoop_eq {β : Type} (dflt : β) (F : Nat → β → β) (n : Nat) (d : List β) :
    forRows (List.range n) (fun i d => d.set i (F i (d.getD i dflt))) d = fillLoop dflt n F d := rfl

theorem rowUnit_comm {β : Type} (dflt : β) (F : Nat → β → β) (i k : Nat) (d : List β) :
    (d.set i (F i (d.getD i dflt))).set k (F k ((d.set i (F i (d.getD i dflt))).getD k dflt))
      = (d.set k (F k (d.getD k dflt))).set i (F i ((d.set k (F k (d.getD k dflt))).getD i dflt)) := by
  by_cases h : i = k
  · subst h; rfl
  · rw [getD_set_ne dflt d i k _ h, getD_set_ne dflt d k i _ (Ne.symm h), List.set_comm _ _ _ h]

theorem forRows_perm {β : Type} (dflt : β) (F : Nat → β → β) (rows1 rows2 : List Nat)
    (hp : rows1.Perm rows2) (d : List β) :
    forRows rows1 (fun i d => d.set i (F i (d.getD i dflt))) d
      = forRows rows2 (fun i d => d.set i (F i (d.getD i dflt))) d := by
  unfold forRows
  exact hp.foldl_eq' (fun x _ y _ z => (rowUnit_comm dflt F x y z)) d

theorem table_getElem? {α : Type} (n : Nat) (f : Nat → Nat → α) (a : Nat) :
    (table n f)[a]? = if a < n then some ((List.range n).map (fun j => f a j)) else none := by
  unfold table
  rw [List.getElem?_map]
  by_cases h : a < n
  · simp [h, List.getElem?_range h]
  · simp [h, List.getElem?_eq_none (l := List.range n) (by simpa using Nat.le_of_not_lt h)]

theorem getCell_table {α : Type} [Zero α] (n : Nat) (f : Nat → Nat → α) (i j : Nat)
    (hi : i < n) (hj : j < n) : getCell (table n f) i j = f i j := by
  simp [getCell, List.getD_eq_getElem?_getD, table_getElem?, hi, hj, List.getElem?_range hj]

/-- Closed form of the double loop of a kernel on well-formed storage. -/
theorem fill_eq_table {α : Type} [Zero α] (g : Nat → Nat → α → α) (n : Nat) (d : Cells α)
    (hlen : d.length = n) (hrow : ∀ row ∈ d, row.length = n) :
    fillLoop [] n (fun i row => fillLoop 0 n (g i) row) d
      = table n (fun i j => g i j (getCell d i j)) := by
  apply List.ext_getElem?
  intro a
  rw [fillLoop_getElem?, table_getElem?]
  by_cases ha : a < n
  · have ha2 : a < d.length := by omega
    rw [if_pos ha, if_pos ha, List.getElem?_eq_getElem ha2]
    simp only [Option.map_some', Option.some.injEq]
    have hr : (d[a]).length = n := hrow _ (List.getElem_mem ha2)
    apply List.ext_getElem?
    intro b
    rw [fillLoop_getElem?, List.getElem?_map]
    by_cases hb : b < n
    · have hb2 : b < (d[a]).length := by omega
      rw [if_pos hb, List.getElem?_range hb, List.getElem?_eq_getElem hb2]
      simp [getCell, List.getD_eq_getElem?_getD, List.getElem?_eq_getElem ha2,
        List.getElem?_eq_getElem hb2]
    · have hb3 : (d[a]).length ≤ b := by omega
      rw [if_neg hb, List.getElem?_eq_none hb3,
        List.getElem?_eq_none (l := List.range n) (by simpa using Nat.le_of_not_lt hb)]
      rfl
  · rw [if_neg ha, if_neg ha]
    exact List.getElem?_eq_none (by omega)

theorem fillLoop_id {β : Type} (dflt : β) (m : Nat) (l : List β) :
    fillLoop dflt m (fun _ x => x) l = l := by
  apply List.ext_getElem?
  intro b
  rw [fillLoop_getElem?]
  split <;> simp

/-- The double loop of a kernel, with the row work units run in any order that
is a permutation of `0, .., n-1`, on well-formed storage. -/
theorem kernel_eq_table {α : Type} [Zero α] (g : Nat → Nat → α → α) (n : Nat)
    (rows : List Nat) (hp : rows.Perm (List.range n)) (d : Cells α)
    (hlen : d.length = n) (hrow : ∀ row ∈ d, row.length = n) :
    forRows rows (fun i d => forLoop n (fun j d => setCell d i j (g i j (getCell d i j))) d) d
      = table n (fun i j => g i j (getCell d i j)) := by
  have hbody : (fun i (d : Cells α) =>
      forLoop n (fun j d => setCell d i j (g i j (getCell d i j))) d)
      = (fun i d => d.set i (fillLoop 0 n (g i) (d.getD i []))) := by
    funext i d; exact cellLoop_eq (g i) i n d
  rw [hbody, forRows_perm [] _ rows _ hp, rowLoop_eq, fill_eq_table g n d hlen hrow]

/-- Row work units commute: two orders of the same rows give the same storage,
well-formed or not. -/
theorem kernel_perm {α : Type} [Zero α] (g : Nat → Nat → α → α) (n : Nat)
    (rows1 rows2 : List Nat) (hp : rows1.Perm rows2) (d : Cells α) :
    forRows rows1 (fun i d => forLoop n (fun j d => setCell d i j (g i j (getCell d i j))) d) d
      = forRows rows2
          (fun i d => forLoop n (fun j d => setCell d i j (g i j (getCell d i j))) d) d := by
  have hbody : (fun i (d : Cells α) =>
      forLoop n (fun j d => setCell d i j (g i j (getCell d i j))) d)
      = (fun i d => d.set i (fillLoop 0 n (g i) (d.getD i []))) := by
    funext i d; exact cellLoop_eq (g i) i n d
  rw [hbody, forRows_perm [] _ rows1 rows2 hp]

theorem table_length {α : Type} (n : Nat) (f : Nat → Nat → α) : (table n f).length = n := by
  simp [table]

theorem table_row_length {α : Type} (n : Nat) (f : Nat → Nat → α) :
    ∀ row ∈ table n f, row.length = n := by
  intro row hrow
  simp only [table, List.mem_map] at hrow
  obtain ⟨i, _, rfl⟩ := hrow
  simp

theorem WF_table {α : Type} (n : Nat) (f : Nat → Nat → α) :
    (⟨n, table n f⟩ : Matrix α).WF :=
  ⟨table_length n f, table_row_length n f⟩

/-- Well-formed storage is the table of its own cells. -/
theorem data_eq_table {α : Type} [Zero α] (n : Nat) (d : Cells α)
    (hlen : d.length = n) (hrow : ∀ row ∈ d, row.length = n) :
    d = table n (fun i j => getCell d i j) := by
  have h := fill_eq_table (fun _ _ (x : α) => x) n d hlen hrow
  have hid : (fun (_ : Nat) (row : List α) => fillLoop 0 n (fun _ x => x) row)
      = (fun _ row => row) := by
    funext i row; exact fillLoop_id 0 n row
  rw [hid, fillLoop_id] at h
  exact h

theorem table_congr {α : Type} (n : Nat) (f g : Nat → Nat → α)
    (h : ∀ i j, i < n → j < n → f i j = g i j) : table n f = table n g := by
  unfold table
  apply List.map_congr_left
  intro i hi
  apply List.map_congr_left
  intro j hj
  exact h i j (List.mem_range.mp hi) (List.mem_range.mp hj)

theorem create_eq_table {α : Type} [Zero α] (n : Nat) :
    (Matrix.create n : Matrix α) = ⟨n, table n (fun _ _ => 0)⟩ := by
  have h1 : ∀ (β : Type) (x : β), List.replicate n x = (List.range n).map (fun _ => x) := by
    intro β x
    apply List.ext_getElem?
    intro k
    rw [List.getElem?_replicate, List.getElem?_map]
    by_cases hk : k < n
    · simp [hk, List.getElem?_range hk]
    · simp [hk, List.getElem?_eq_none (l := List.range n) (by simpa using Nat.le_of_not_lt hk)]
  simp only [Matrix.create, table, Matrix.mk.injEq, true_and]
  rw [h1 _ (List.replicate n (0 : α)), h1 _ (0 : α)]

theorem createFilled_eq_table {α : Type} (n : Nat) (v : α) :
    (Matrix.createFilled n v : Matrix α) = ⟨n, table n (fun _ _ => v)⟩ := by
  have h1 : ∀ (β : Type) (x : β), List.replicate n x = (List.range n).map (fun _ => x) := by
    intro β x
    apply List.ext_getElem?
    intro k
    rw [List.getElem?_replicate, List.getElem?_map]
    by_cases hk : k < n
    · simp [hk, List.getElem?_range hk]
    · simp [hk, List.getElem?_eq_none (l := List.range n) (by simpa using Nat.le_of_not_lt hk)]
  simp only [Matrix.createFilled, table, Matrix.mk.injEq, true_and]
  rw [h1 _ (List.replicate n v), h1 _ v]

/-- The accumulation `sum = 0; for k: sum += f k` is the sum over `[0, n)`. -/
theorem forLoop_sum {α : Type} [CommRing α] (n : Nat) (f : Nat → α) :
    forLoop n (fun k sum => sum + f k) 0 = ∑ k ∈ Finset.range n, f k := by
  induction n with
  | zero => simp [forLoop_zero]
  | succ n ih => rw [forLoop_succ, ih, Finset.sum_range_succ]

/-! ## Closed forms of the kernels -/

namespace Matrix

variable {α : Type} [CommRing α]

theorem create_data_length (n : Nat) : (create n : Matrix α).data.length = n := by
  simp [create]

theorem create_row_length (n : Nat) : ∀ row ∈ (create n : Matrix α).data, row.length = n := by
  intro row hrow
  simp only [create] at hrow
  rw [List.eq_of_mem_replicate hrow, List.length_replicate]

/-- The kernels read `COMPUTATION_TYPE` only through the arm it selects, and
both arms run the same loop nest. -/
theorem add_sched_branch (ct : Int) (rows : List Nat) (X Y : Matrix α) :
    add_sched ct rows X Y = add_sched 1 rows X Y := by
  unfold add_sched
  cases branch ct <;> rfl

theorem multiply_sched_branch (ct : Int) (rows : List Nat) (X Y : Matrix α) :
    multiply_sched ct rows X Y = multiply_sched 1 rows X Y := by
  unfold multiply_sched
  cases branch ct <;> rfl

theorem multiply_scalar_sched_branch (ct : Int) (rows : List Nat) (X : Matrix α) (s : α) :
    multiply_scalar_sched ct rows X s = multiply_scalar_sched 1 rows X s := by
  unfold multiply_scalar_sched
  cases branch ct <;> rfl

theorem multiply_sched_eq (ct : Int) (rows : List Nat) (X Y : Matrix α)
    (h : X.size = Y.size) (hp : rows.Perm (List.range X.size)) :
    multiply_sched ct rows X Y = Except.ok ⟨X.size, table X.size (fun i j =>
      forLoop X.size (fun k sum => sum + getCell X.data i k * getCell Y.data k j) 0)⟩ := by
  rw [multiply_sched_branch]
  have hk := kernel_eq_table (fun i j (_ : α) =>
      forLoop X.size (fun k sum => sum + getCell X.data i k * getCell Y.data k j) 0)
    X.size rows hp (create X.size : Matrix α).data (create_data_length _) (create_row_length _)
  simp only [multiply_sched, h, ne_eq, not_true_eq_false, if_false, branch, if_true]
  rw [← h]
  exact congrArg (fun d => Except.ok (Matrix.mk X.size d)) hk

theorem multiply_eq (ct : Int) (X Y : Matrix α) (h : X.size = Y.size) :
    multiply ct X Y = Except.ok ⟨X.size, table X.size (fun i j =>
      ∑ k ∈ Finset.range X.size, getCell X.data i k * getCell Y.data k j)⟩ := by
  unfold multiply
  rw [multiply_sched_eq ct _ X Y h (List.Perm.refl _)]
  simp only [forLoop_sum]

theorem multiply_scalar_sched_eq (ct : Int) (rows : List Nat) (X : Matrix α) (s : α)
    (hp : rows.Perm (List.range X.size)) :
    multiply_scalar_sched ct rows X s
      = ⟨X.size, table X.size (fun i j => s * getCell X.data i j)⟩ := by
  rw [multiply_scalar_sched_branch]
  have hk := kernel_eq_table (fun i j (_ : α) => s * getCell X.data i j)
    X.size rows hp (create X.size : Matrix α).data (create_data_length _) (create_row_length _)
  simp only [multiply_scalar_sched, branch, if_true]
  exact congrArg (fun d => Matrix.mk X.size d) hk

theorem multiply_scalar_eq (ct : Int) (X : Matrix α) (s : α) :
    multiply_scalar ct X s = ⟨X.size, table X.size (fun i j => s * getCell X.data i j)⟩ :=
  multiply_scalar_sched_eq ct _ X s (List.Perm.refl _)

theorem add_sched_eq (ct : Int) (rows : List Nat) (X Y : Matrix α) (hX : X.WF)
    (h : X.size = Y.size) (hp : rows.Perm (List.range X.size)) :
    add_sched ct rows X Y
      = (Except.ok ⟨X.size, table X.size (fun i j => getCell X.data i j + getCell Y.data i j)⟩,
         ⟨X.size, table X.size (fun i j => getCell X.data i j + getCell Y.data i j)⟩) := by
  rw [add_sched_branch]
  have hk := kernel_eq_table (fun i j (x : α) => x + getCell Y.data i j)
    X.size rows hp X.data hX.1 hX.2
  simp only [add_sched, h, ne_eq, not_true_eq_false, if_false, branch, if_true]
  rw [← h]
  have hd : forRows rows (fun i d => add_row Y X.size i d) X.data
      = table X.size (fun i j => getCell X.data i j + getCell Y.data i j) := hk
  rw [hd]

theorem add_eq (ct : Int) (X Y : Matrix α) (hX : X.WF) (h : X.size = Y.size) :
    add ct X Y
      = (Except.ok ⟨X.size, table X.size (fun i j => getCell X.data i j + getCell Y.data i j)⟩,
         ⟨X.size, table X.size (fun i j => getCell X.data i j + getCell Y.data i j)⟩) :=
  add_sched_eq ct _ X Y hX h (List.Perm.refl _)

theorem op_add_eq (X Y : Matrix α) (h : X.size = Y.size) :
    op_add X Y
      = Except.ok ⟨X.size, table X.size (fun i j => getCell X.data i j + getCell Y.data i j)⟩ := by
  have hk := kernel_eq_table (fun i j (_ : α) => getCell X.data i j + getCell Y.data i j)
    X.size (List.range X.size) (List.Perm.refl _) (create X.size : Matrix α).data
    (create_data_length _) (create_row_length _)
  simp only [op_add, h, ne_eq, not_true_eq_false, if_false]
  rw [← h]
  exact congrArg (fun d => Except.ok (Matrix.mk X.size d)) hk

theorem op_add_assign_eq (X Y : Matrix α) (hX : X.WF) (h : X.size = Y.size) :
    op_add_assign X Y
      = (Except.ok (),
         ⟨X.size, table X.size (fun i j => getCell X.data i j + getCell Y.data i j)⟩) := by
  have hk := kernel_eq_table (fun i j (x : α) => x + getCell Y.data i j)
    X.size (List.range X.size) (List.Perm.refl _) X.data hX.1 hX.2
  simp only [op_add_assign, h, ne_eq, not_true_eq_false, if_false]
  rw [← h]
  exact congrArg (fun d => (Except.ok (), Matrix.mk X.size d)) hk

theorem set_identity_eq (X : Matrix α) (hX : X.WF) :
    set_identity X = ⟨X.size, table X.size (fun i j => if i = j then 1 else 0)⟩ := by
  have hk := kernel_eq_table (fun i j (_ : α) => if i = j then (1 : α) else 0)
    X.size (List.range X.size) (List.Perm.refl _) X.data hX.1 hX.2
  exact congrArg (fun d => Matrix.mk X.size d) hk

theorem trace_eq (X : Matrix α) : trace X = ∑ i ∈ Finset.range X.size, getCell X.data i i := by
  unfold trace
  exact forLoop_sum X.size (fun i => getCell X.data i i)

/-- A well-formed matrix is the table of its cells. -/
theorem eq_table (X : Matrix α) (hX : X.WF) :
    X = ⟨X.size, table X.size (fun i j => getCell X.data i j)⟩ := by
  cases X with
  | mk n d =>
    simp only [Matrix.mk.injEq, true_and]
    exact data_eq_table n d hX.1 hX.2

end Matrix

/-! ## The expression evaluator -/

theorem cell_table {α : Type} [Zero α] (n : Nat) (f : Nat → Nat → α) (i j : Nat)
    (hi : i < n) (hj : j < n) : (⟨n, table n f⟩ : Matrix α).cell i j = f i j :=
  getCell_table n f i j hi hj

theorem matProd_congr {α : Type} [CommRing α] (n : Nat) (f f1 g g1 : Nat → Nat → α)
    (hf : ∀ i k, i < n → k < n → f i k = f1 i k)
    (hg : ∀ k j, k < n → j < n → g k j = g1 k j) (i j : Nat) (hi : i < n) (hj : j < n) :
    matProd n f g i j = matProd n f1 g1 i j := by
  unfold matProd
  apply Finset.sum_congr rfl
  intro k hk
  have hk2 : k < n := Finset.mem_range.mp hk
  rw [hf i k hi hk2, hg k j hk2 hj]

theorem Matrix.multiply_cell {α : Type} [CommRing α] (ct : Int) (X Y : Matrix α)
    (h : X.size = Y.size) :
    Matrix.multiply ct X Y = Except.ok ⟨X.size, table X.size (matProd X.size X.cell Y.cell)⟩ :=
  Matrix.multiply_eq ct X Y h

theorem Matrix.trace_diagSum {α : Type} [CommRing α] (X : Matrix α) :
    X.trace = diagSum X.size X.cell :=
  Matrix.trace_eq X

/-- The value `exp_matrix(3)` returns: `(C·C)·C`. -/
theorem Matrix.exp_matrix_three {α : Type} [CommRing α] (ct : Int) (C : Matrix α) :
    Matrix.exp_matrix ct C 3 = Except.ok ⟨C.size, table C.size
      (matProd C.size (matProd C.size C.cell C.cell) C.cell)⟩ := by
  have h2 : Matrix.multiply ct C C
      = Except.ok ⟨C.size, table C.size (matProd C.size C.cell C.cell)⟩ :=
    Matrix.multiply_cell ct C C rfl
  have h3 := Matrix.multiply_cell ct
    (⟨C.size, table C.size (matProd C.size C.cell C.cell)⟩ : Matrix α) C rfl
  have hr : List.range' 1 ((3 : Int) - 1).toNat = [1, 2] := by decide
  unfold Matrix.exp_matrix
  rw [hr]
  simp only [List.foldlM_cons, List.foldlM_nil, h2, bind, Except.bind, h3, pure, Except.pure]
  congr 2
  apply table_congr
  intro i j hi hj
  exact matProd_congr C.size _ _ _ _ (fun a b ha hb => cell_table _ _ a b ha hb)
    (fun _ _ _ _ => rfl) i j hi hj

theorem Matrix.add_table {α : Type} [CommRing α] (ct : Int) (n : Nat) (f : Nat → Nat → α)
    (Y : Matrix α) (h : Y.size = n) :
    Matrix.add ct ⟨n, table n f⟩ Y
      = (Except.ok ⟨n, table n (fun i j => f i j + Y.cell i j)⟩,
         ⟨n, table n (fun i j => f i j + Y.cell i j)⟩) := by
  rw [Matrix.add_eq ct _ Y (WF_table n f) h.symm]
  have ht : table n (fun i j => getCell (table n f) i j + getCell Y.data i j)
      = table n (fun i j => f i j + Y.cell i j) := by
    apply table_congr
    intro i j hi hj
    rw [getCell_table n f i j hi hj]
    rfl
  simp only [ht]

theorem Matrix.add_table_table {α : Type} [CommRing α] (ct : Int) (n : Nat)
    (f g : Nat → Nat → α) :
    Matrix.add ct ⟨n, table n f⟩ ⟨n, table n g⟩
      = (Except.ok ⟨n, table n (fun i j => f i j + g i j)⟩,
         ⟨n, table n (fun i j => f i j + g i j)⟩) := by
  rw [Matrix.add_table ct n f ⟨n, table n g⟩ rfl]
  have ht : table n (fun i j => f i j + (⟨n, table n g⟩ : Matrix α).cell i j)
      = table n (fun i j => f i j + g i j) := by
    apply table_congr
    intro i j hi hj
    rw [cell_table n g i j hi hj]
  simp only [ht]

/-- Closed form of `calculate_expression` on operands of equal order. -/
theorem calculate_expression_eq {α : Type} [CommRing α] (ct : Int) (B C : Matrix α)
    (h : B.size = C.size) :
    calculate_expression ct B C = Except.ok ⟨B.size, table B.size (fun i j =>
      matProd B.size B.cell (matProd B.size (matProd B.size C.cell C.cell) C.cell) i j
        + (if i = j then diagSum B.size C.cell else 0) + C.cell i j + diagSum B.size B.cell)⟩ := by
  have hC : C.size = B.size := h.symm
  have hI : (Matrix.create B.size : Matrix α).set_identity
      = ⟨B.size, table B.size (fun i j => if i = j then 1 else 0)⟩ := by
    rw [create_eq_table]
    exact Matrix.set_identity_eq _ (WF_table _ _)
  have hM := Matrix.multiply_cell ct B
    (⟨B.size, table B.size (matProd B.size (matProd B.size C.cell C.cell) C.cell)⟩ : Matrix α) rfl
  unfold calculate_expression
  simp only [Matrix.get_size, Matrix.assign]
  rw [Matrix.exp_matrix_three]
  simp only [bind, Except.bind, hC, hM, hI, Matrix.multiply_scalar_eq, createFilled_eq_table]
  rw [Matrix.add_table_table]
  simp only []
  rw [Matrix.add_table ct B.size _ C hC]
  simp only []
  rw [Matrix.add_table_table]
  simp only [pure, Except.pure]
  congr 2
  apply table_congr
  intro i j hi hj
  rw [getCell_table _ _ i j hi hj, getCell_table _ _ i j hi hj, Matrix.trace_diagSum,
    Matrix.trace_diagSum, hC, mul_one, mul_ite, mul_one, mul_zero]
  congr 3
  exact matProd_congr B.size _ _ _ _ (fun _ _ _ _ => rfl)
    (fun a b ha hb => cell_table _ _ a b ha hb) i j hi hj

/-- C2: when the orders of `X` and `Y` differ, in-place `add`, `operator+`,
`operator+=` and the matrix `multiply` (under every strategy setting and every
order of the row work units) all fail with the size-mismatch exception, and the
receiver after the failed in-place calls is `X` itself, order and cells.  `Y`
is a `const&` argument and the `const` operations have no receiver state to
return: the embedding passes them by value. -/
theorem size_mismatch_no_mutation {α : Type} [CommRing α] (ct : Int) (rows : List Nat)
    (X Y : Matrix α) (h : X.size ≠ Y.size) :
    Matrix.add ct X Y = (Except.error sizeMismatch, X)
    ∧ Matrix.add_sched ct rows X Y = (Except.error sizeMismatch, X)
    ∧ Matrix.op_add X Y = Except.error sizeMismatch
    ∧ Matrix.op_add_assign X Y = (Except.error sizeMismatch, X)
    ∧ Matrix.multiply ct X Y = Except.error sizeMismatch
    ∧ Matrix.multiply_sched ct rows X Y = Except.error sizeMismatch := by
  refine ⟨?_, ?_, ?_, ?_, ?_, ?_⟩
  · simp only [Matrix.add, Matrix.add_sched, ne_eq, h, not_false_eq_true, if_true]
  · simp only [Matrix.add_sched, ne_eq, h, not_false_eq_true, if_true]
  · simp only [Matrix.op_add, ne_eq, h, not_false_eq_true, if_true]
  · simp only [Matrix.op_add_assign, ne_eq, h, not_false_eq_true, if_true]
  · simp only [Matrix.multiply, Matrix.multiply_sched, ne_eq, h, not_false_eq_true, if_true]
  · simp only [Matrix.multiply_sched, ne_eq, h, not_false_eq_true, if_true]

/-- Witness of `size_mismatch_no_mutation` at an order-2 and an order-3 operand. -/
theorem size_mismatch_no_mutation_witness :
    exB.size ≠ exD.size ∧
    (Matrix.add 1 exB exD = (Except.error sizeMismatch, exB)
    ∧ Matrix.add_sched 1 [1, 0] exB exD = (Except.error sizeMismatch, exB)
    ∧ Matrix.op_add exB exD = Except.error sizeMismatch
    ∧ Matrix.op_add_assign exB exD = (Except.error sizeMismatch, exB)
    ∧ Matrix.multiply 1 exB exD = Except.error sizeMismatch
    ∧ Matrix.multiply_sched 1 [1, 0] exB exD = Except.error sizeMismatch) :=
  ⟨by decide, size_mismatch_no_mutation 1 [1, 0] exB exD (by decide)⟩

/-- C3: with the row work units of the data-parallel run in any order `rows1`
and those of the task run in any order `rows2` (permutations of
`0, .., size-1`), `add`, `multiply(scalar)` and `multiply(matrix)` under
`COMPUTATION_TYPE = 1` return exactly what they return under 2 and under 3
(result and receiver state); the same holds in program order; and the settings
2 and 3 select the same arm of every kernel, the one 1 does not select. -/
theorem strategy_equivalence {α : Type} [CommRing α] (X Y : Matrix α) (s : α)
    (rows1 rows2 : List Nat) (h1 : rows1.Perm (List.range X.size))
    (h2 : rows2.Perm (List.range X.size)) (ct : Int) (hct : ct = 2 ∨ ct = 3) :
    (branch 1 = Branch.omp_for ∧ branch 2 = Branch.taskloop ∧ branch 3 = Branch.taskloop)
    ∧ Matrix.add_sched 1 rows1 X Y = Matrix.add_sched ct rows2 X Y
    ∧ Matrix.multiply_scalar_sched 1 rows1 X s = Matrix.multiply_scalar_sched ct rows2 X s
    ∧ Matrix.multiply_sched 1 rows1 X Y = Matrix.multiply_sched ct rows2 X Y
    ∧ Matrix.add 1 X Y = Matrix.add ct X Y
    ∧ Matrix.multiply_scalar 1 X s = Matrix.multiply_scalar ct X s
    ∧ Matrix.multiply 1 X Y = Matrix.multiply ct X Y := by
  have hp : rows1.Perm rows2 := h1.trans h2.symm
  have hb : branch ct = Branch.taskloop := by
    rcases hct with rfl | rfl <;> decide
  refine ⟨⟨by decide, by decide, by decide⟩, ?_, ?_, ?_, ?_, ?_, ?_⟩
  · have hk := kernel_perm (fun i j (x : α) => x + getCell Y.data i j) X.size rows1 rows2 hp
      X.data
    have hd : forRows rows1 (fun i d => Matrix.add_row Y X.size i d) X.data
        = forRows rows2 (fun i d => Matrix.add_row Y X.size i d) X.data := hk
    simp only [Matrix.add_sched, hb, hd, show branch 1 = Branch.omp_for from by decide]
  · have hk := kernel_perm (fun i j (_ : α) => s * getCell X.data i j) X.size rows1 rows2 hp
      (Matrix.create X.size : Matrix α).data
    have hd : forRows rows1 (fun i d => Matrix.multiply_scalar_row X s i d)
          (Matrix.create X.size : Matrix α).data
        = forRows rows2 (fun i d => Matrix.multiply_scalar_row X s i d)
          (Matrix.create X.size : Matrix α).data := hk
    simp only [Matrix.multiply_scalar_sched, hb, hd, show branch 1 = Branch.omp_for from by decide]
  · have hk := kernel_perm (fun i j (_ : α) =>
        forLoop X.size (fun k sum => sum + getCell X.data i k * getCell Y.data k j) 0)
      X.size rows1 rows2 hp (Matrix.create X.size : Matrix α).data
    have hd : forRows rows1 (fun i d => Matrix.multiply_row X Y i d)
          (Matrix.create X.size : Matrix α).data
        = forRows rows2 (fun i d => Matrix.multiply_row X Y i d)
          (Matrix.create X.size : Matrix α).data := hk
    simp only [Matrix.multiply_sched, hb, hd, show branch 1 = Branch.omp_for from by decide]
  · exact (Matrix.add_sched_branch ct _ X Y).symm
  · exact (Matrix.multiply_scalar_sched_branch ct _ X s).symm
  · exact (Matrix.multiply_sched_branch ct _ X Y).symm

/-- Witness of `strategy_equivalence`: rows `1, 0` for the data-parallel run,
rows `0, 1` for the task run, setting 3. -/
theorem strategy_equivalence_witness :
    [1, 0].Perm (List.range exB.size) ∧ [0, 1].Perm (List.range exB.size)
    ∧ ((3 : Int) = 2 ∨ (3 : Int) = 3)
    ∧ ((branch 1 = Branch.omp_for ∧ branch 2 = Branch.taskloop ∧ branch 3 = Branch.taskloop)
      ∧ Matrix.add_sched 1 [1, 0] exB exC = Matrix.add_sched 3 [0, 1] exB exC
      ∧ Matrix.multiply_scalar_sched 1 [1, 0] exB 5 = Matrix.multiply_scalar_sched 3 [0, 1] exB 5
      ∧ Matrix.multiply_sched 1 [1, 0] exB exC = Matrix.multiply_sched 3 [0, 1] exB exC
      ∧ Matrix.add 1 exB exC = Matrix.add 3 exB exC
      ∧ Matrix.multiply_scalar 1 exB 5 = Matrix.multiply_scalar 3 exB 5
      ∧ Matrix.multiply 1 exB exC = Matrix.multiply 3 exB exC) :=
  ⟨by decide, by decide, by decide,
    strategy_equivalence exB exC 5 [1, 0] [0, 1] (by decide) (by decide) 3 (by decide)⟩

/-- C4: on operands of the same order `n`, `multiply` succeeds and returns a
well-formed order-`n` matrix `R` whose cell `(i, j)` is the sum over `k` in
`[0, n)` of `X[i][k] * Y[k][j]`, accumulated from `0` in increasing `k`.  The
operation is `const` on a `const&` argument: the embedding is a pure function
of `X` and `Y`. -/
theorem multiply_spec {α : Type} [CommRing α] (ct : Int) (X Y : Matrix α)
    (h : X.size = Y.size) :
    ∃ R : Matrix α, Matrix.multiply ct X Y = Except.ok R ∧ R.size = X.size ∧ R.WF ∧
      ∀ i j, i < X.size → j < X.size →
        R.cell i j
            = (List.range X.size).foldl (fun sum k => sum + X.cell i k * Y.cell k j) 0
        ∧ R.cell i j = ∑ k ∈ Finset.range X.size, X.cell i k * Y.cell k j := by
  refine ⟨_, Matrix.multiply_sched_eq ct _ X Y h (List.Perm.refl _), rfl, WF_table _ _, ?_⟩
  intro i j hi hj
  rw [cell_table _ _ i j hi hj]
  exact ⟨rfl, forLoop_sum X.size (fun k => getCell X.data i k * getCell Y.data k j)⟩

/-- Witness of `multiply_spec` at two order-2 operands. -/
theorem multiply_spec_witness :
    exB.size = exC.size ∧
    ∃ R : Matrix Int, Matrix.multiply 2 exB exC = Except.ok R ∧ R.size = exB.size ∧ R.WF ∧
      ∀ i j, i < exB.size → j < exB.size →
        R.cell i j
            = (List.range exB.size).foldl (fun sum k => sum + exB.cell i k * exC.cell k j) 0
        ∧ R.cell i j = ∑ k ∈ Finset.range exB.size, exB.cell i k * exC.cell k j :=
  ⟨rfl, multiply_spec 2 exB exC rfl⟩

/-- C5: `exp_matrix(M, 1)` returns `M`; for `k ≥ 1`, `exp_matrix(M, k + 1)` is
`exp_matrix(M, k)` followed by one `multiply` by the original operand `M`;
`exp_matrix(M, k)` is `k - 1` successive multiplications by `M` applied to `M`;
and it returns a matrix of the order of `M` (each multiplication passes the
order check). -/
theorem exp_matrix_recurrence {α : Type} [CommRing α] (ct : Int) (M : Matrix α) (k : Int)
    (hk : 1 ≤ k) :
    Matrix.exp_matrix ct M 1 = Except.ok M
    ∧ Matrix.exp_matrix ct M (k + 1)
        = (Matrix.exp_matrix ct M k >>= fun R => Matrix.multiply ct R M)
    ∧ Matrix.exp_matrix ct M k
        = Nat.iterate (fun r => r >>= fun R => Matrix.multiply ct R M) (k - 1).toNat
            (Except.ok M)
    ∧ ∃ R : Matrix α, Matrix.exp_matrix ct M k = Except.ok R ∧ R.size = M.size := by
  obtain ⟨m, rfl⟩ : ∃ m : Nat, k = (m : Int) + 1 := ⟨(k - 1).toNat, by omega⟩
  have hstep : ∀ n : Nat, Matrix.exp_matrix ct M ((n : Int) + 1 + 1)
      = (Matrix.exp_matrix ct M ((n : Int) + 1) >>= fun R => Matrix.multiply ct R M) := by
    intro n
    have e1 : ((n : Int) + 1 + 1 - 1).toNat = n + 1 := by omega
    have e2 : ((n : Int) + 1 - 1).toNat = n := by omega
    unfold Matrix.exp_matrix
    rw [e1, e2, List.range'_concat, List.foldlM_append]
    simp only [List.foldlM_cons, List.foldlM_nil, bind_pure]
  have hiter : ∀ n : Nat, Matrix.exp_matrix ct M ((n : Int) + 1)
      = Nat.iterate (fun r => r >>= fun R => Matrix.multiply ct R M) n (Except.ok M) := by
    intro n
    induction n with
    | zero => rfl
    | succ n ih =>
      have hcast : ((n + 1 : Nat) : Int) + 1 = (n : Int) + 1 + 1 := by omega
      rw [hcast, hstep n, ih, Function.iterate_succ_apply']
  have hcount : Matrix.exp_matrix ct M ((m : Int) + 1)
      = Nat.iterate (fun r => r >>= fun R => Matrix.multiply ct R M) ((m : Int) + 1 - 1).toNat
          (Except.ok M) := by
    have em : ((m : Int) + 1 - 1).toNat = m := by omega
    rw [em]
    exact hiter m
  refine ⟨rfl, hstep m, hcount, ?_⟩
  clear hcount
  induction m with
  | zero => exact ⟨M, rfl, rfl⟩
  | succ m ih =>
    obtain ⟨R, hR, hsize⟩ := ih (by omega)
    have hcast : ((m + 1 : Nat) : Int) + 1 = (m : Int) + 1 + 1 := by omega
    rw [hcast, hstep m, hR]
    exact ⟨_, Matrix.multiply_cell ct R M hsize, hsize⟩

/-- Witness of `exp_matrix_recurrence` at `k = 2`. -/
theorem exp_matrix_recurrence_witness :
    (1 : Int) ≤ 2 ∧
    (Matrix.exp_matrix 1 exC 1 = Except.ok exC
    ∧ Matrix.exp_matrix 1 exC (2 + 1)
        = (Matrix.exp_matrix 1 exC 2 >>= fun R => Matrix.multiply 1 R exC)
    ∧ Matrix.exp_matrix 1 exC 2
        = Nat.iterate (fun r => r >>= fun R => Matrix.multiply 1 R exC) ((2 : Int) - 1).toNat
            (Except.ok exC)
    ∧ ∃ R : Matrix Int, Matrix.exp_matrix 1 exC 2 = Except.ok R ∧ R.size = exC.size) :=
  ⟨by decide, exp_matrix_recurrence 1 exC 2 (by decide)⟩

/-- C7: for a well-formed matrix `M` of order `n`, adding the zero-filled
`Matrix(n)` leaves `M`: the in-place `add` returns `M` and leaves the receiver
equal to `M`, and `operator+` returns `M`. -/
theorem add_zero_matrix {α : Type} [CommRing α] (ct : Int) (M : Matrix α) (hM : M.WF) :
    Matrix.add ct M (Matrix.create M.size) = (Except.ok M, M)
    ∧ Matrix.op_add M (Matrix.create M.size) = Except.ok M := by
  have ht : table M.size
      (fun i j => getCell M.data i j + getCell (Matrix.create M.size : Matrix α).data i j)
      = M.data := by
    conv_rhs => rw [data_eq_table M.size M.data hM.1 hM.2]
    apply table_congr
    intro i j hi hj
    rw [create_eq_table, getCell_table _ _ i j hi hj, add_zero]
  have hm : (⟨M.size, M.data⟩ : Matrix α) = M := rfl
  constructor
  · rw [Matrix.add_eq ct M (Matrix.create M.size) hM rfl, ht, hm]
  · rw [Matrix.op_add_eq M (Matrix.create M.size) rfl, ht]

/-- Witness of `add_zero_matrix` at an order-3 matrix. -/
theorem add_zero_matrix_witness :
    exD.WF ∧
    (Matrix.add 2 exD (Matrix.create exD.size) = (Except.ok exD, exD)
    ∧ Matrix.op_add exD (Matrix.create exD.size) = Except.ok exD) :=
  ⟨by decide, add_zero_matrix 2 exD (by decide)⟩

/-- C8: for a well-formed `X` and a `Y` of the same order, the trace of the sum
is the sum of the traces, for the matrix `operator+` returns and for the matrix
the in-place `add` returns and leaves in the receiver. -/
theorem trace_add {α : Type} [CommRing α] (ct : Int) (X Y : Matrix α) (hX : X.WF)
    (h : X.size = Y.size) :
    (∃ R : Matrix α, Matrix.op_add X Y = Except.ok R ∧ R.trace = X.trace + Y.trace)
    ∧ ∃ R : Matrix α, Matrix.add ct X Y = (Except.ok R, R) ∧ R.trace = X.trace + Y.trace := by
  have ht : (⟨X.size, table X.size (fun i j => getCell X.data i j + getCell Y.data i j)⟩ :
      Matrix α).trace = X.trace + Y.trace := by
    rw [Matrix.trace_eq, Matrix.trace_eq, Matrix.trace_eq, ← h, ← Finset.sum_add_distrib]
    apply Finset.sum_congr rfl
    intro i hi
    exact getCell_table _ _ i i (Finset.mem_range.mp hi) (Finset.mem_range.mp hi)
  exact ⟨⟨_, Matrix.op_add_eq X Y h, ht⟩, ⟨_, Matrix.add_eq ct X Y hX h, ht⟩⟩

/-- Witness of `trace_add` at two order-2 operands. -/
theorem trace_add_witness :
    exB.WF ∧ exB.size = exC.size ∧
    ((∃ R : Matrix Int, Matrix.op_add exB exC = Except.ok R ∧ R.trace = exB.trace + exC.trace)
    ∧ ∃ R : Matrix Int, Matrix.add 1 exB exC = (Except.ok R, R)
        ∧ R.trace = exB.trace + exC.trace) :=
  ⟨by decide, rfl, trace_add 1 exB exC (by decide) rfl⟩

/-- C9: the trace of a well-formed order-`n` matrix after `set_identity` is `n`;
in particular for `Matrix(n)` after `set_identity`. -/
theorem trace_set_identity {α : Type} [CommRing α] (M : Matrix α) (hM : M.WF) :
    M.set_identity.trace = (M.size : α)
    ∧ ((Matrix.create M.size).set_identity : Matrix α).trace = (M.size : α) := by
  have ht : (⟨M.size, table M.size (fun i j => if i = j then (1 : α) else 0)⟩ :
      Matrix α).trace = (M.size : α) := by
    rw [Matrix.trace_eq]
    have hsum : ∀ i ∈ Finset.range M.size,
        getCell (table M.size (fun i j => if i = j then (1 : α) else 0)) i i = 1 := by
      intro i hi
      rw [getCell_table _ _ i i (Finset.mem_range.mp hi) (Finset.mem_range.mp hi), if_pos rfl]
    rw [Finset.sum_congr rfl hsum]
    simp
  constructor
  · rw [Matrix.set_identity_eq M hM]
    exact ht
  · rw [create_eq_table, Matrix.set_identity_eq _ (WF_table _ _)]
    exact ht

/-- Witness of `trace_set_identity` at an order-3 matrix. -/
theorem trace_set_identity_witness :
    exD.WF ∧
    (exD.set_identity.trace = (exD.size : Int)
    ∧ ((Matrix.create exD.size).set_identity : Matrix Int).trace = (exD.size : Int)) :=
  ⟨by decide, trace_set_identity exD (by decide)⟩

/-- C10: on the order-1 operands `B = [[b]]`, `C = [[c]]`, `calculate_expression`
returns `[[b·c³ + 2c + b]]`; for `b = 2`, `c = 3` this is `[[62]]`. -/
theorem calculate_expression_order_one {α : Type} [CommRing α] (ct : Int) (b c : α) :
    calculate_expression ct ⟨1, [[b]]⟩ ⟨1, [[c]]⟩ = Except.ok ⟨1, [[b * c ^ 3 + 2 * c + b]]⟩
    ∧ calculate_expression ct (⟨1, [[2]]⟩ : Matrix Int) ⟨1, [[3]]⟩ = Except.ok ⟨1, [[62]]⟩ := by
  have hgen : ∀ (β : Type) [CommRing β] (b c : β),
      calculate_expression ct ⟨1, [[b]]⟩ ⟨1, [[c]]⟩
        = Except.ok ⟨1, [[b * c ^ 3 + 2 * c + b]]⟩ := by
    intro β _ b c
    rw [calculate_expression_eq ct ⟨1, [[b]]⟩ ⟨1, [[c]]⟩ rfl]
    have ht : ∀ f : Nat → Nat → β, table 1 f = [[f 0 0]] := fun _ => rfl
    simp only [ht, matProd, diagSum, Finset.sum_range_one, if_true]
    have hb : (⟨1, [[b]]⟩ : Matrix β).cell 0 0 = b := rfl
    have hc : (⟨1, [[c]]⟩ : Matrix β).cell 0 0 = c := rfl
    rw [hb, hc]
    have hring : b * (c * c * c) + c + c + b = b * c ^ 3 + 2 * c + b := by ring
    rw [hring]
  refine ⟨hgen α b c, ?_⟩
  rw [hgen Int 2 3]
  rfl

/-! ## Failure and frame of the evaluator and of the kernels -/

theorem Matrix.assign_eq {α : Type} (X Y : Matrix α) : Matrix.assign X Y = Y := rfl

theorem Matrix.multiply_mismatch {α : Type} [CommRing α] (ct : Int) (X Y : Matrix α)
    (h : X.size ≠ Y.size) : Matrix.multiply ct X Y = Except.error sizeMismatch := by
  simp only [Matrix.multiply, Matrix.multiply_sched, ne_eq, h, not_false_eq_true, if_true]

theorem Matrix.multiply_ok {α : Type} [CommRing α] (ct : Int) (X Y : Matrix α)
    (h : X.size = Y.size) :
    ∃ R : Matrix α, Matrix.multiply ct X Y = Except.ok R ∧ R.size = X.size ∧ R.WF :=
  ⟨_, Matrix.multiply_cell ct X Y h, rfl, WF_table _ _⟩

theorem Matrix.add_ok {α : Type} [CommRing α] (ct : Int) (X Y : Matrix α) (hX : X.WF)
    (h : X.size = Y.size) :
    ∃ R : Matrix α, Matrix.add ct X Y = (Except.ok R, R) ∧ R.size = X.size ∧ R.WF :=
  ⟨_, Matrix.add_eq ct X Y hX h, rfl, WF_table _ _⟩

theorem Matrix.multiply_scalar_size {α : Type} [CommRing α] (ct : Int) (X : Matrix α) (s : α) :
    (Matrix.multiply_scalar ct X s).size = X.size := by
  rw [Matrix.multiply_scalar_eq]

theorem Matrix.exp_matrix_three_steps {α : Type} [CommRing α] (ct : Int) (C : Matrix α) :
    Matrix.exp_matrix ct C 3
      = (Matrix.multiply ct C C >>= fun C2 => Matrix.multiply ct C2 C) := by
  have hr : List.range' 1 ((3 : Int) - 1).toNat = [1, 2] := by decide
  unfold Matrix.exp_matrix
  rw [hr]
  simp only [List.foldlM_cons, List.foldlM_nil, bind_pure]

/-- C11: `calculate_expression(B, C)` throws the size-mismatch exception exactly
when the orders of `B` and `C` differ and returns a matrix exactly when they are
equal; with equal orders the two products inside `exp_matrix(3)`, the product
`B·C3` and the three in-place additions each pass their order check.  `B` and
`C` are `const&` arguments: the embedding passes them by value. -/
theorem calculate_expression_fails_iff {α : Type} [CommRing α] (ct : Int) (B C : Matrix α) :
    (calculate_expression ct B C = Except.error sizeMismatch ↔ B.size ≠ C.size)
    ∧ ((∃ A : Matrix α, calculate_expression ct B C = Except.ok A) ↔ B.size = C.size)
    ∧ (B.size = C.size → ∃ C2 C3 M A1 A2 A3 : Matrix α,
        Matrix.multiply ct C C = Except.ok C2
        ∧ Matrix.multiply ct C2 C = Except.ok C3
        ∧ Matrix.exp_matrix ct C 3 = Except.ok C3
        ∧ Matrix.multiply ct B C3 = Except.ok M
        ∧ Matrix.add ct (Matrix.assign (Matrix.create B.get_size) M)
            (Matrix.multiply_scalar ct (Matrix.create C.get_size).set_identity C.trace)
            = (Except.ok A1, A1)
        ∧ Matrix.add ct A1 C = (Except.ok A2, A2)
        ∧ Matrix.add ct A2
            (Matrix.multiply_scalar ct (Matrix.createFilled C.get_size 1) B.trace)
            = (Except.ok A3, A3)
        ∧ calculate_expression ct B C = Except.ok A3) := by
  have hne : B.size ≠ C.size → calculate_expression ct B C = Except.error sizeMismatch := by
    intro h
    have hM := Matrix.multiply_mismatch ct B
      (⟨C.size, table C.size (matProd C.size (matProd C.size C.cell C.cell) C.cell)⟩ :
        Matrix α) h
    unfold calculate_expression
    rw [Matrix.exp_matrix_three]
    simp only [bind, Except.bind, hM]
  have heq : B.size = C.size → ∃ C2 C3 M A1 A2 A3 : Matrix α,
      Matrix.multiply ct C C = Except.ok C2
      ∧ Matrix.multiply ct C2 C = Except.ok C3
      ∧ Matrix.exp_matrix ct C 3 = Except.ok C3
      ∧ Matrix.multiply ct B C3 = Except.ok M
      ∧ Matrix.add ct (Matrix.assign (Matrix.create B.get_size) M)
          (Matrix.multiply_scalar ct (Matrix.create C.get_size).set_identity C.trace)
          = (Except.ok A1, A1)
      ∧ Matrix.add ct A1 C = (Except.ok A2, A2)
      ∧ Matrix.add ct A2
          (Matrix.multiply_scalar ct (Matrix.createFilled C.get_size 1) B.trace)
          = (Except.ok A3, A3)
      ∧ calculate_expression ct B C = Except.ok A3 := by
    intro h
    obtain ⟨C2, h2, hs2, _⟩ := Matrix.multiply_ok ct C C rfl
    obtain ⟨C3, h3, hs3, _⟩ := Matrix.multiply_ok ct C2 C hs2
    have hexp : Matrix.exp_matrix ct C 3 = Except.ok C3 := by
      rw [Matrix.exp_matrix_three_steps, h2]
      exact h3
    obtain ⟨M, hM, hsM, hwM⟩ := Matrix.multiply_ok ct B C3 (by rw [hs3, hs2, h])
    have hI : (Matrix.multiply_scalar ct
        (Matrix.create C.get_size : Matrix α).set_identity C.trace).size = C.size :=
      Matrix.multiply_scalar_size ct _ _
    have hE : (Matrix.multiply_scalar ct
        (Matrix.createFilled C.get_size (1 : α)) B.trace).size = C.size :=
      Matrix.multiply_scalar_size ct _ _
    obtain ⟨A1, hA1, hs1, hw1⟩ := Matrix.add_ok ct
      (Matrix.assign (Matrix.create B.get_size) M)
      (Matrix.multiply_scalar ct (Matrix.create C.get_size : Matrix α).set_identity C.trace)
      hwM (by rw [hI, Matrix.assign_eq, hsM, h])
    rw [Matrix.assign_eq] at hs1
    obtain ⟨A2, hA2, hsA2, hw2⟩ := Matrix.add_ok ct A1 C hw1 (by rw [hs1, hsM, h])
    obtain ⟨A3, hA3, _, _⟩ := Matrix.add_ok ct A2
      (Matrix.multiply_scalar ct (Matrix.createFilled C.get_size (1 : α)) B.trace)
      hw2 (by rw [hE, hsA2, hs1, hsM, h])
    refine ⟨C2, C3, M, A1, A2, A3, h2, h3, hexp, hM, hA1, hA2, hA3, ?_⟩
    unfold calculate_expression
    simp only [hexp, bind, Except.bind, hM, hA1, hA2, hA3, pure, Except.pure]
  refine ⟨⟨?_, hne⟩, ⟨?_, ?_⟩, heq⟩
  · intro herr hsz
    obtain ⟨_, _, _, _, _, A3, _, _, _, _, _, _, _, hok⟩ := heq hsz
    rw [hok] at herr
    exact Except.noConfusion herr
  · rintro ⟨A, hA⟩
    by_contra hsz
    rw [hne hsz] at hA
    exact Except.noConfusion hA
  · intro hsz
    obtain ⟨_, _, _, _, _, A3, _, _, _, _, _, _, _, hok⟩ := heq hsz
    exact ⟨A3, hok⟩

/-- C12: for a well-formed `X` and a `Y` of the same order `n`, in-place
`X.add(Y)` returns a matrix equal to the receiver it leaves, of order `n`, with
cell `(i, j)` equal to `X_old[i][j] + Y[i][j]`; `X + Y` returns a matrix with the
same order and cells; `X += Y` leaves the receiver that in-place `add` leaves.
`Y` is a `const&` argument and `operator+` is `const`: pure in the embedding. -/
theorem add_frame {α : Type} [CommRing α] (ct : Int) (X Y : Matrix α) (hX : X.WF)
    (h : X.size = Y.size) :
    ∃ R : Matrix α, Matrix.add ct X Y = (Except.ok R, R)
      ∧ Matrix.op_add X Y = Except.ok R
      ∧ Matrix.op_add_assign X Y = (Except.ok (), R)
      ∧ R.size = X.size ∧ R.WF
      ∧ ∀ i j, i < X.size → j < X.size → R.cell i j = X.cell i j + Y.cell i j :=
  ⟨_, Matrix.add_eq ct X Y hX h, Matrix.op_add_eq X Y h, Matrix.op_add_assign_eq X Y hX h,
    rfl, WF_table _ _, fun i j hi hj => cell_table _ _ i j hi hj⟩

/-- Witness of `add_frame` at two order-2 operands. -/
theorem add_frame_witness :
    exB.WF ∧ exB.size = exC.size ∧
    ∃ R : Matrix Int, Matrix.add 1 exB exC = (Except.ok R, R)
      ∧ Matrix.op_add exB exC = Except.ok R
      ∧ Matrix.op_add_assign exB exC = (Except.ok (), R)
      ∧ R.size = exB.size ∧ R.WF
      ∧ ∀ i j, i < exB.size → j < exB.size → R.cell i j = exB.cell i j + exC.cell i j :=
  ⟨by decide, rfl, add_frame 1 exB exC (by decide) rfl⟩

/-- C13: `multiply(M, s)` returns a well-formed matrix of the order `n` of `M`
whose cell `(i, j)` is `s * M[i][j]`, under every strategy setting; the
operation is `const`: a pure function of `M` and `s` in the embedding. -/
theorem multiply_scalar_spec {α : Type} [CommRing α] (ct : Int) (M : Matrix α) (s : α) :
    (Matrix.multiply_scalar ct M s).size = M.size
    ∧ (Matrix.multiply_scalar ct M s).WF
    ∧ ∀ i j, i < M.size → j < M.size →
        (Matrix.multiply_scalar ct M s).cell i j = s * M.cell i j := by
  rw [Matrix.multiply_scalar_eq]
  exact ⟨rfl, WF_table _ _, fun i j hi hj => cell_table _ _ i j hi hj⟩

/-- C15: after `set_identity` on a well-formed matrix of order `n`, cell
`(i, j)` is `1` if `i = j` and `0` otherwise, whatever the cells were before,
the order is unchanged, and a second `set_identity` changes nothing. -/
theorem set_identity_spec {α : Type} [CommRing α] (M : Matrix α) (hM : M.WF) :
    M.set_identity.size = M.size
    ∧ M.set_identity.WF
    ∧ (∀ i j, i < M.size → j < M.size →
        M.set_identity.cell i j = if i = j then 1 else 0)
    ∧ M.set_identity.set_identity = M.set_identity := by
  have h1 := Matrix.set_identity_eq M hM
  have h2 := Matrix.set_identity_eq
    (⟨M.size, table M.size (fun i j => if i = j then (1 : α) else 0)⟩ : Matrix α)
    (WF_table _ _)
  rw [h1]
  exact ⟨rfl, WF_table _ _, fun i j hi hj => cell_table _ _ i j hi hj, h2⟩

/-- Witness of `set_identity_spec` at an order-3 matrix. -/
theorem set_identity_spec_witness :
    exD.WF ∧
    (exD.set_identity.size = exD.size
    ∧ exD.set_identity.WF
    ∧ (∀ i j, i < exD.size → j < exD.size →
        exD.set_identity.cell i j = if i = j then 1 else 0)
    ∧ exD.set_identity.set_identity = exD.set_identity) :=
  ⟨by decide, set_identity_spec exD (by decide)⟩

/-- C19: for `n ≤ 0` the loop of `exp_matrix(M, n)` has no iteration, so no
multiplication is made, and the call returns `M`, as `exp_matrix(M, 1)` does. -/
theorem exp_matrix_nonpositive {α : Type} [CommRing α] (ct : Int) (M : Matrix α) (n : Int)
    (hn : n ≤ 0) :
    List.range' 1 (n - 1).toNat = []
    ∧ Matrix.exp_matrix ct M n = Except.ok M
    ∧ Matrix.exp_matrix ct M n = Matrix.exp_matrix ct M 1 := by
  have h0 : (n - 1).toNat = 0 := Int.toNat_of_nonpos (by omega)
  have hM : Matrix.exp_matrix ct M n = Except.ok M := by
    unfold Matrix.exp_matrix
    rw [h0]
    rfl
  exact ⟨by rw [h0]; rfl, hM, by rw [hM]; rfl⟩

/-- Witness of `exp_matrix_nonpositive` at `n = -2`. -/
theorem exp_matrix_nonpositive_witness :
    (-2 : Int) ≤ 0 ∧
    (List.range' 1 ((-2 : Int) - 1).toNat = []
    ∧ Matrix.exp_matrix 1 exC (-2) = Except.ok exC
    ∧ Matrix.exp_matrix 1 exC (-2) = Matrix.exp_matrix 1 exC 1) :=
  ⟨by decide, exp_matrix_nonpositive 1 exC (-2) (by decide)⟩

/-! ## Random filling and the well-formedness invariant -/

/-- The inner loop of a filling that counts its draws. -/
theorem drawLoop_inner {α : Type} (v : Nat → α) (i m : Nat) (d : Cells α) (k : Nat) :
    forLoop m (fun j (st : Cells α × Nat) => (setCell st.1 i j (v st.2), st.2 + 1)) (d, k)
      = (forLoop m (fun j d => setCell d i j (v (k + j))) d, k + m) := by
  induction m with
  | zero => rfl
  | succ m ih => rw [forLoop_succ, ih, forLoop_succ]; rfl

/-- The double loop of a filling that counts its draws: cell `(i, j)` takes draw
number `k + i * n + j`. -/
theorem drawLoop_outer {α : Type} (v : Nat → α) (n m : Nat) (d : Cells α) (k : Nat) :
    forLoop m (fun i (st : Cells α × Nat) =>
        forLoop n (fun j st => (setCell st.1 i j (v st.2), st.2 + 1)) st) (d, k)
      = (forLoop m (fun i d => forLoop n (fun j d => setCell d i j (v (k + i * n + j))) d) d,
          k + m * n) := by
  induction m with
  | zero => simp [forLoop_zero]
  | succ m ih =>
    rw [forLoop_succ, ih, drawLoop_inner, forLoop_succ]
    have hk : k + m * n + n = k + (m + 1) * n := by ring
    rw [hk]

theorem Matrix.randomize_int_eq {α : Type} [CommRing α] (rand : Nat → Nat) (M : Matrix α)
    (calls : Nat) (hM : M.WF) :
    M.randomize_int rand calls
      = (⟨M.size, table M.size (fun i j =>
            ((rand (calls + i * M.size + j) % M.size + 1 : Nat) : α))⟩,
          calls + M.size * M.size) := by
  have hk := kernel_eq_table
    (fun i j (_ : α) => ((rand (calls + i * M.size + j) % M.size + 1 : Nat) : α))
    M.size (List.range M.size) (List.Perm.refl _) M.data hM.1 hM.2
  have hd := drawLoop_outer (fun c => ((rand c % M.size + 1 : Nat) : α)) M.size M.size
    M.data calls
  unfold Matrix.randomize_int
  simp only [hd]
  exact congrArg (fun d => ((Matrix.mk M.size d : Matrix α), calls + M.size * M.size)) hk

theorem Matrix.randomize_size {α : Type} [CommRing α] (dis : Nat → α) (M : Matrix α) :
    (M.randomize dis).size = M.size := rfl

theorem Matrix.randomize_int_size {α : Type} [CommRing α] (rand : Nat → Nat) (M : Matrix α)
    (calls : Nat) : (M.randomize_int rand calls).1.size = M.size := rfl

/-- C17: after `randomize_int` on a well-formed matrix of order `n`, whatever
non-negative integers `rand()` returns, the order is unchanged, the matrix is
well-formed, `n * n` draws were consumed and every cell `(i, j)` holds an
integer `v` with `1 ≤ v ≤ n`, namely `rand() % n + 1` for draw number
`i * n + j` of the call. -/
theorem randomize_int_range {α : Type} [CommRing α] (rand : Nat → Nat) (M : Matrix α)
    (calls : Nat) (hM : M.WF) :
    (M.randomize_int rand calls).1.size = M.size
    ∧ (M.randomize_int rand calls).1.WF
    ∧ (M.randomize_int rand calls).2 = calls + M.size * M.size
    ∧ ∀ i j, i < M.size → j < M.size →
        ∃ v : Nat, 1 ≤ v ∧ v ≤ M.size ∧ v = rand (calls + i * M.size + j) % M.size + 1
          ∧ (M.randomize_int rand calls).1.cell i j = (v : α) := by
  rw [Matrix.randomize_int_eq rand M calls hM]
  refine ⟨rfl, WF_table _ _, rfl, ?_⟩
  intro i j hi hj
  have hpos : 0 < M.size := by omega
  have hlt := Nat.mod_lt (rand (calls + i * M.size + j)) hpos
  exact ⟨rand (calls + i * M.size + j) % M.size + 1, by omega, by omega, rfl,
    cell_table _ _ i j hi hj⟩

/-- Witness of `randomize_int_range` at an order-3 matrix and the draws
`7 k + 3`. -/
theorem randomize_int_range_witness :
    exD.WF ∧
    ((exD.randomize_int (fun k => 7 * k + 3) 5).1.size = exD.size
    ∧ (exD.randomize_int (fun k => 7 * k + 3) 5).1.WF
    ∧ (exD.randomize_int (fun k => 7 * k + 3) 5).2 = 5 + exD.size * exD.size
    ∧ ∀ i j, i < exD.size → j < exD.size →
        ∃ v : Nat, 1 ≤ v ∧ v ≤ exD.size
          ∧ v = (fun k => 7 * k + 3) (5 + i * exD.size + j) % exD.size + 1
          ∧ (exD.randomize_int (fun k => 7 * k + 3) 5).1.cell i j = (v : Int)) :=
  ⟨by decide, randomize_int_range (fun k => 7 * k + 3) exD 5 (by decide)⟩

theorem Matrix.create_WF {α : Type} [CommRing α] (n : Nat) : (Matrix.create n : Matrix α).WF :=
  ⟨Matrix.create_data_length n, Matrix.create_row_length n⟩

theorem Matrix.createFilled_WF {α : Type} (n : Nat) (v : α) :
    (Matrix.createFilled n v : Matrix α).WF := by
  rw [createFilled_eq_table]
  exact WF_table _ _

theorem Matrix.exp_matrix_ok {α : Type} [CommRing α] (ct : Int) (M : Matrix α) (hM : M.WF)
    (number : Int) :
    ∃ R : Matrix α, Matrix.exp_matrix ct M number = Except.ok R ∧ R.size = M.size ∧ R.WF := by
  have hloop : ∀ (l : List Nat) (X : Matrix α), X.size = M.size → X.WF →
      ∃ R : Matrix α, l.foldlM (fun result _times => Matrix.multiply ct result M) X
        = Except.ok R ∧ R.size = M.size ∧ R.WF := by
    intro l
    induction l with
    | nil => intro X hs hw; exact ⟨X, rfl, hs, hw⟩
    | cons t l ih =>
      intro X hs hw
      obtain ⟨R, hR, hsR, hwR⟩ := Matrix.multiply_ok ct X M hs
      obtain ⟨R2, hR2, hs2, hw2⟩ := ih R (hsR.trans hs) hwR
      refine ⟨R2, ?_, hs2, hw2⟩
      rw [List.foldlM_cons, hR]
      exact hR2
  exact hloop _ M rfl hM

/-- C14 (counterexample): the default constructor, which `main` uses for
`matrix_A`, produces a matrix of order `0`, so `order ≥ 1` fails for it; and
assigning an order-2 matrix to it changes its order. -/
theorem default_constructor_order_zero :
    ¬ (Matrix.empty : Matrix Int).Invariant
    ∧ (Matrix.empty : Matrix Int).size = 0
    ∧ ¬ (Matrix.create 0 : Matrix Int).Invariant
    ∧ (Matrix.assign (Matrix.empty : Matrix Int) exB).size ≠ (Matrix.empty : Matrix Int).size := by
  refine ⟨?_, rfl, ?_, by decide⟩
  · intro h
    exact absurd h.1 (by decide)
  · intro h
    exact absurd h.1 (by decide)

/-- C14 (amended): every constructor produces a well-formed matrix, of the
order it is given (`0` for the default constructor); `set_identity`,
`randomize_int`, in-place `add`, `operator+`, `operator+=`, both `multiply`
overloads, `exp_matrix` and `calculate_expression` return and leave well-formed
matrices of the order of their receiver (of `B` for the evaluator), so an order
`≥ 1` stays `≥ 1`; assignment gives the receiver the order and the cells of the
assigned matrix. -/
theorem wf_invariant {α : Type} [CommRing α] (ct : Int) (rand : Nat → Nat) (calls n : Nat)
    (v s : α) (number : Int) (X Y Z : Matrix α) (hX : X.WF) (hZ : Z.WF)
    (h : X.size = Y.size) :
    ((Matrix.empty : Matrix α).WF ∧ (Matrix.empty : Matrix α).size = 0)
    ∧ ((Matrix.create n : Matrix α).WF ∧ (Matrix.create n : Matrix α).size = n)
    ∧ ((Matrix.createFilled n v).WF ∧ (Matrix.createFilled n v).size = n)
    ∧ (Matrix.assign X Z = Z ∧ (Matrix.assign X Z).WF ∧ (Matrix.assign X Z).size = Z.size)
    ∧ (X.set_identity.WF ∧ X.set_identity.size = X.size)
    ∧ ((X.randomize_int rand calls).1.WF ∧ (X.randomize_int rand calls).1.size = X.size)
    ∧ (∃ R : Matrix α, Matrix.add ct X Y = (Except.ok R, R) ∧ R.WF ∧ R.size = X.size)
    ∧ (∃ R : Matrix α, Matrix.op_add X Y = Except.ok R ∧ R.WF ∧ R.size = X.size)
    ∧ (∃ R : Matrix α, Matrix.op_add_assign X Y = (Except.ok (), R) ∧ R.WF ∧ R.size = X.size)
    ∧ (∃ R : Matrix α, Matrix.multiply ct X Y = Except.ok R ∧ R.WF ∧ R.size = X.size)
    ∧ ((Matrix.multiply_scalar ct X s).WF ∧ (Matrix.multiply_scalar ct X s).size = X.size)
    ∧ (∃ R : Matrix α, Matrix.exp_matrix ct X number = Except.ok R ∧ R.WF ∧ R.size = X.size)
    ∧ (∃ R : Matrix α, calculate_expression ct X Y = Except.ok R ∧ R.WF ∧ R.size = X.size)
    ∧ (1 ≤ X.size → X.Invariant) := by
  refine ⟨⟨⟨rfl, ?_⟩, rfl⟩, ⟨Matrix.create_WF n, rfl⟩, ⟨Matrix.createFilled_WF n v, rfl⟩,
    ⟨rfl, hZ, rfl⟩, ?_, ?_, ⟨_, Matrix.add_eq ct X Y hX h, WF_table _ _, rfl⟩,
    ⟨_, Matrix.op_add_eq X Y h, WF_table _ _, rfl⟩,
    ⟨_, Matrix.op_add_assign_eq X Y hX h, WF_table _ _, rfl⟩,
    ⟨_, Matrix.multiply_cell ct X Y h, WF_table _ _, rfl⟩, ?_, ?_,
    ⟨_, calculate_expression_eq ct X Y h, WF_table _ _, rfl⟩, fun h1 => ⟨h1, hX⟩⟩
  · intro row hrow
    exact absurd hrow (List.not_mem_nil row)
  · rw [Matrix.set_identity_eq X hX]
    exact ⟨WF_table _ _, rfl⟩
  · rw [Matrix.randomize_int_eq rand X calls hX]
    exact ⟨WF_table _ _, rfl⟩
  · rw [Matrix.multiply_scalar_eq]
    exact ⟨WF_table _ _, rfl⟩
  · obtain ⟨R, hR, hs, hw⟩ := Matrix.exp_matrix_ok ct X hX number
    exact ⟨R, hR, hw, hs⟩

/-- Witness of `wf_invariant` at order-2 operands and an order-3 source of the
assignment. -/
theorem wf_invariant_witness :
    exB.WF ∧ exD.WF ∧ exB.size = exC.size
    ∧ (∃ R : Matrix Int, calculate_expression 1 exB exC = Except.ok R ∧ R.WF
        ∧ R.size = exB.size)
    ∧ (Matrix.assign exB exD).size = exD.size :=
  ⟨by decide, by decide, rfl,
    (wf_invariant 1 (fun k => k) 0 2 0 5 3 exB exC exD (by decide) (by decide)
      rfl).2.2.2.2.2.2.2.2.2.2.2.2.1,
    (wf_invariant 1 (fun k => k) 0 2 0 5 3 exB exC exD (by decide) (by decide)
      rfl).2.2.2.1.2.2⟩

/-! ## Row work units -/

/-- The inner loop of a kernel for row `i` leaves every other row and the number
of rows as they were. -/
theorem cellLoop_frame {α : Type} [Zero α] (g : Nat → α → α) (i m : Nat) (d : Cells α) :
    (forLoop m (fun j d => setCell d i j (g j (getCell d i j))) d).length = d.length
    ∧ ∀ a, a ≠ i →
        (forLoop m (fun j d => setCell d i j (g j (getCell d i j))) d).getD a [] = d.getD a [] := by
  rw [cellLoop_eq]
  exact ⟨List.length_set _ _ _, fun a ha => getD_set_ne [] d i a _ (Ne.symm ha)⟩

theorem getCell_of_row_eq {α : Type} [Zero α] (d1 d2 : Cells α) (a b : Nat)
    (h : d1.getD a [] = d2.getD a []) : getCell d1 a b = getCell d2 a b := by
  unfold getCell
  rw [h]

/-- C18: the work unit of row `i` of `add`, of `multiply(scalar)` and of
`multiply(matrix)` keeps the number of rows and leaves every row other than `i`,
hence every cell outside row `i`, as it found it; and whatever the number of
threads and the rows each of them is given (`queues`, one list per thread,
together the rows `0, .., size-1`), every order `rows` in which their work units
run gives the result of the program order, under every strategy setting. -/
theorem row_units_disjoint {α : Type} [CommRing α] (ct : Int) (X Y : Matrix α) (s : α)
    (queues : List (List Nat)) (rows : List Nat)
    (hq : queues.flatten.Perm (List.range X.size)) (hr : rows.Perm queues.flatten)
    (i : Nat) (d : Cells α) :
    ((Matrix.add_row Y X.size i d).length = d.length
      ∧ (∀ a, a ≠ i → (Matrix.add_row Y X.size i d).getD a [] = d.getD a [])
      ∧ ∀ a b, a ≠ i → getCell (Matrix.add_row Y X.size i d) a b = getCell d a b)
    ∧ ((Matrix.multiply_scalar_row X s i d).length = d.length
      ∧ (∀ a, a ≠ i → (Matrix.multiply_scalar_row X s i d).getD a [] = d.getD a [])
      ∧ ∀ a b, a ≠ i → getCell (Matrix.multiply_scalar_row X s i d) a b = getCell d a b)
    ∧ ((Matrix.multiply_row X Y i d).length = d.length
      ∧ (∀ a, a ≠ i → (Matrix.multiply_row X Y i d).getD a [] = d.getD a [])
      ∧ ∀ a b, a ≠ i → getCell (Matrix.multiply_row X Y i d) a b = getCell d a b)
    ∧ Matrix.add_sched ct rows X Y = Matrix.add ct X Y
    ∧ Matrix.multiply_scalar_sched ct rows X s = Matrix.multiply_scalar ct X s
    ∧ Matrix.multiply_sched ct rows X Y = Matrix.multiply ct X Y := by
  have hp : rows.Perm (List.range X.size) := hr.trans hq
  have hadd := cellLoop_frame (fun j (x : α) => x + getCell Y.data i j) i X.size d
  have hsc := cellLoop_frame (fun j (_ : α) => s * getCell X.data i j) i X.size d
  have hmul := cellLoop_frame (fun j (_ : α) =>
    forLoop X.size (fun k sum => sum + getCell X.data i k * getCell Y.data k j) 0) i X.size d
  refine ⟨⟨hadd.1, hadd.2, fun a b ha => getCell_of_row_eq _ _ a b (hadd.2 a ha)⟩,
    ⟨hsc.1, hsc.2, fun a b ha => getCell_of_row_eq _ _ a b (hsc.2 a ha)⟩,
    ⟨hmul.1, hmul.2, fun a b ha => getCell_of_row_eq _ _ a b (hmul.2 a ha)⟩, ?_, ?_, ?_⟩
  · have hk := kernel_perm (fun i j (x : α) => x + getCell Y.data i j) X.size rows
      (List.range X.size) hp X.data
    have hd : forRows rows (fun i d => Matrix.add_row Y X.size i d) X.data
        = forRows (List.range X.size) (fun i d => Matrix.add_row Y X.size i d) X.data := hk
    simp only [Matrix.add, Matrix.add_sched, hd]
  · have hk := kernel_perm (fun i j (_ : α) => s * getCell X.data i j) X.size rows
      (List.range X.size) hp (Matrix.create X.size : Matrix α).data
    have hd : forRows rows (fun i d => Matrix.multiply_scalar_row X s i d)
          (Matrix.create X.size : Matrix α).data
        = forRows (List.range X.size) (fun i d => Matrix.multiply_scalar_row X s i d)
          (Matrix.create X.size : Matrix α).data := hk
    simp only [Matrix.multiply_scalar, Matrix.multiply_scalar_sched, hd]
  · have hk := kernel_perm (fun i j (_ : α) =>
        forLoop X.size (fun k sum => sum + getCell X.data i k * getCell Y.data k j) 0)
      X.size rows (List.range X.size) hp (Matrix.create X.size : Matrix α).data
    have hd : forRows rows (fun i d => Matrix.multiply_row X Y i d)
          (Matrix.create X.size : Matrix α).data
        = forRows (List.range X.size) (fun i d => Matrix.multiply_row X Y i d)
          (Matrix.create X.size : Matrix α).data := hk
    simp only [Matrix.multiply, Matrix.multiply_sched, hd]

/-- Witness of `row_units_disjoint`: three rows on two threads, thread 0 with
rows `0, 2`, thread 1 with row `1`, run in the order `1, 0, 2`. -/
theorem row_units_disjoint_witness :
    [[0, 2], [1]].flatten.Perm (List.range exD.size) ∧ [1, 0, 2].Perm [[0, 2], [1]].flatten
    ∧ Matrix.add_sched 2 [1, 0, 2] exD exD = Matrix.add 2 exD exD
    ∧ Matrix.multiply_scalar_sched 2 [1, 0, 2] exD 5 = Matrix.multiply_scalar 2 exD 5
    ∧ Matrix.multiply_sched 2 [1, 0, 2] exD exD = Matrix.multiply 2 exD exD :=
  ⟨by decide, by decide,
    (row_units_disjoint 2 exD exD 5 [[0, 2], [1]] [1, 0, 2] (by decide) (by decide) 0
      exD.data).2.2.2⟩

/-! ## Powers -/

theorem matProd_assoc {α : Type} [CommRing α] (n : Nat) (f g h : Nat → Nat → α) (i j : Nat) :
    matProd n (matProd n f g) h i j = matProd n f (matProd n g h) i j := by
  unfold matProd
  simp only [Finset.sum_mul, Finset.mul_sum]
  rw [Finset.sum_comm]
  apply Finset.sum_congr rfl
  intro l _
  apply Finset.sum_congr rfl
  intro k _
  ring

theorem matPow_add {α : Type} [CommRing α] (n : Nat) (f : Nat → Nat → α) (a b : Nat) :
    matPow n f (a + b + 1) = matProd n (matPow n f a) (matPow n f b) := by
  induction b with
  | zero => rfl
  | succ b ih =>
    have hab : a + (b + 1) + 1 = (a + b + 1) + 1 := by omega
    rw [hab]
    show matProd n (matPow n f (a + b + 1)) f = matProd n (matPow n f a) (matProd n (matPow n f b) f)
    rw [ih]
    funext i j
    exact matProd_assoc n _ _ _ i j

theorem Matrix.exp_matrix_succ {α : Type} [CommRing α] (ct : Int) (M : Matrix α) (n : Nat) :
    Matrix.exp_matrix ct M ((n : Int) + 1 + 1)
      = (Matrix.exp_matrix ct M ((n : Int) + 1) >>= fun R => Matrix.multiply ct R M) := by
  have e1 : ((n : Int) + 1 + 1 - 1).toNat = n + 1 := by omega
  have e2 : ((n : Int) + 1 - 1).toNat = n := by omega
  unfold Matrix.exp_matrix
  rw [e1, e2, List.range'_concat, List.foldlM_append]
  simp only [List.foldlM_cons, List.foldlM_nil, bind_pure]

/-- The cells of `exp_matrix(M, k + 1)`: the left-nested power with `k + 1`
factors. -/
theorem Matrix.exp_matrix_cells {α : Type} [CommRing α] (ct : Int) (M : Matrix α) (k : Nat) :
    ∃ R : Matrix α, Matrix.exp_matrix ct M ((k : Int) + 1) = Except.ok R ∧ R.size = M.size
      ∧ ∀ i j, i < M.size → j < M.size → R.cell i j = matPow M.size M.cell k i j := by
  induction k with
  | zero => exact ⟨M, rfl, rfl, fun _ _ _ _ => rfl⟩
  | succ k ih =>
    obtain ⟨R, hR, hs, hc⟩ := ih
    have hcast : ((k + 1 : Nat) : Int) + 1 = (k : Int) + 1 + 1 := by omega
    rw [hcast, Matrix.exp_matrix_succ, hR]
    refine ⟨_, Matrix.multiply_cell ct R M hs, hs, ?_⟩
    intro i j hi hj
    rw [hs, cell_table _ _ i j hi hj]
    exact matProd_congr M.size _ _ _ _ hc (fun _ _ _ _ => rfl) i j hi hj

/-- The power with `k + 2` factors is a table. -/
theorem Matrix.exp_matrix_table {α : Type} [CommRing α] (ct : Int) (M : Matrix α) (k : Nat) :
    Matrix.exp_matrix ct M ((k : Int) + 1 + 1)
      = Except.ok ⟨M.size, table M.size (matPow M.size M.cell (k + 1))⟩ := by
  obtain ⟨R, hR, hs, hc⟩ := Matrix.exp_matrix_cells ct M k
  rw [Matrix.exp_matrix_succ, hR]
  have hm := Matrix.multiply_cell ct R M hs
  rw [hs] at hm
  have ht : table M.size (matProd M.size R.cell M.cell)
      = table M.size (matPow M.size M.cell (k + 1)) := by
    apply table_congr
    intro i j hi hj
    exact matProd_congr M.size _ _ _ _ hc (fun _ _ _ _ => rfl) i j hi hj
  rw [ht] at hm
  exact hm

/-- C20: for `a, b ≥ 1`, `exp_matrix(M, a)` and `exp_matrix(M, b)` return
matrices whose product `multiply` returns, and `exp_matrix(M, a + b)` returns
that same matrix; in particular `exp_matrix(C, 3)`, the left-nested `(C·C)·C`,
is also `C·(C·C)`. -/
theorem exp_matrix_add {α : Type} [CommRing α] (ct : Int) (M : Matrix α) (a b : Int)
    (ha : 1 ≤ a) (hb : 1 ≤ b) :
    (∃ Ra Rb R : Matrix α, Matrix.exp_matrix ct M a = Except.ok Ra
      ∧ Matrix.exp_matrix ct M b = Except.ok Rb
      ∧ Matrix.multiply ct Ra Rb = Except.ok R
      ∧ Matrix.exp_matrix ct M (a + b) = Except.ok R)
    ∧ ∃ C2 L : Matrix α, Matrix.multiply ct M M = Except.ok C2
      ∧ Matrix.multiply ct C2 M = Except.ok L
      ∧ Matrix.multiply ct M C2 = Except.ok L
      ∧ Matrix.exp_matrix ct M 3 = Except.ok L := by
  have hgen : ∀ p q : Nat, ∃ Ra Rb R : Matrix α,
      Matrix.exp_matrix ct M ((p : Int) + 1) = Except.ok Ra
      ∧ Matrix.exp_matrix ct M ((q : Int) + 1) = Except.ok Rb
      ∧ Matrix.multiply ct Ra Rb = Except.ok R
      ∧ Matrix.exp_matrix ct M ((p : Int) + 1 + ((q : Int) + 1)) = Except.ok R := by
    intro p q
    obtain ⟨Ra, hRa, hsa, hca⟩ := Matrix.exp_matrix_cells ct M p
    obtain ⟨Rb, hRb, hsb, hcb⟩ := Matrix.exp_matrix_cells ct M q
    have hm := Matrix.multiply_cell ct Ra Rb (hsa.trans hsb.symm)
    have hsum : (p : Int) + 1 + ((q : Int) + 1) = ((p + q : Nat) : Int) + 1 + 1 := by
      push_cast; ring
    have ht : table Ra.size (matProd Ra.size Ra.cell Rb.cell)
        = table M.size (matPow M.size M.cell (p + q + 1)) := by
      rw [hsa, matPow_add]
      apply table_congr
      intro i j hi hj
      exact matProd_congr M.size _ _ _ _ hca hcb i j hi hj
    refine ⟨Ra, Rb, _, hRa, hRb, hm, ?_⟩
    rw [hsum, Matrix.exp_matrix_table, ht, hsa]
  obtain ⟨p, rfl⟩ : ∃ p : Nat, a = (p : Int) + 1 := ⟨(a - 1).toNat, by omega⟩
  obtain ⟨q, rfl⟩ : ∃ q : Nat, b = (q : Int) + 1 := ⟨(b - 1).toNat, by omega⟩
  refine ⟨hgen p q, ?_⟩
  obtain ⟨X2, X1, L, hX2, hX1, hL, hexp⟩ := hgen 1 0
  obtain ⟨Y1, Y2, L2, hY1, hY2, hL2, hexp2⟩ := hgen 0 1
  have h1 : Matrix.exp_matrix ct M (((0 : Nat) : Int) + 1) = Except.ok M := rfl
  have h3a : ((1 : Nat) : Int) + 1 + (((0 : Nat) : Int) + 1) = 3 := by norm_num
  have h3b : ((0 : Nat) : Int) + 1 + (((1 : Nat) : Int) + 1) = 3 := by norm_num
  rw [h3a] at hexp
  rw [h3b, hexp] at hexp2
  have hLL : L = L2 := Except.ok.inj hexp2
  rw [h1] at hX1 hY1
  have hX1M : M = X1 := Except.ok.inj hX1
  have hY1M : M = Y1 := Except.ok.inj hY1
  subst hX1M hY1M hLL
  have h22 : Matrix.exp_matrix ct M (((1 : Nat) : Int) + 1) = Matrix.multiply ct M M := by
    have := Matrix.exp_matrix_succ ct M 0
    simpa using this
  rw [hX2] at hY2
  have hXY : X2 = Y2 := Except.ok.inj hY2
  subst hXY
  rw [h22] at hX2
  exact ⟨X2, L, hX2, hL, hL2, hexp⟩

/-- Witness of `exp_matrix_add` at `a = 2`, `b = 3`. -/
theorem exp_matrix_add_witness :
    (1 : Int) ≤ 2 ∧ (1 : Int) ≤ 3 ∧
    ((∃ Ra Rb R : Matrix Int, Matrix.exp_matrix 1 exC 2 = Except.ok Ra
      ∧ Matrix.exp_matrix 1 exC 3 = Except.ok Rb
      ∧ Matrix.multiply 1 Ra Rb = Except.ok R
      ∧ Matrix.exp_matrix 1 exC (2 + 3) = Except.ok R)
    ∧ ∃ C2 L : Matrix Int, Matrix.multiply 1 exC exC = Except.ok C2
      ∧ Matrix.multiply 1 C2 exC = Except.ok L
      ∧ Matrix.multiply 1 exC C2 = Except.ok L
      ∧ Matrix.exp_matrix 1 exC 3 = Except.ok L) :=
  ⟨by decide, by decide, exp_matrix_add 1 exC 2 3 (by decide) (by decide)⟩

/-! ## The driver -/

/-- Past the argument checks `main` returns 0: the two seeded operands have the
same order, so the evaluator returns. -/
theorem main_valid {α : Type} [CommRing α] (rand : Nat → Nat) (dis_B dis_C : Nat → α)
    (argv : List String) (n t : Int) (hlen : argv.length = 5)
    (h1 : stoi (argv.getD 1 "") = Except.ok n) (h2 : stoi (argv.getD 2 "") = Except.ok t)
    (hn : ¬ (n ≤ 0 ∨ n > 4096)) (ht : ¬ t ≤ 0)
    (hs : ¬ (argv.getD 3 "" ≠ "simple" ∧ argv.getD 3 "" ≠ "tasks"
      ∧ argv.getD 3 "" ≠ "sections")) :
    ∃ run : Run α, main rand dis_B dis_C argv = Except.ok run ∧ run.exit_code = 0
      ∧ run.stdout.length = if parse_print_flag (argv.getD 4 "") then 8 else 1 := by
  unfold main
  simp only [hlen, ne_eq, not_true_eq_false, if_false, h1, h2, hn, ht, hs]
  split
  · next e he =>
    exfalso
    have hsize : (if parse_print_flag (argv.getD 4 "") = true then
          (((Matrix.create n.toNat : Matrix α).randomize_int rand 0).1,
            ((Matrix.create n.toNat : Matrix α).randomize_int rand
              ((Matrix.create n.toNat : Matrix α).randomize_int rand 0).2).1)
        else ((Matrix.create n.toNat : Matrix α).randomize dis_B,
          (Matrix.create n.toNat : Matrix α).randomize dis_C)).1.size
        = (if parse_print_flag (argv.getD 4 "") = true then
          (((Matrix.create n.toNat : Matrix α).randomize_int rand 0).1,
            ((Matrix.create n.toNat : Matrix α).randomize_int rand
              ((Matrix.create n.toNat : Matrix α).randomize_int rand 0).2).1)
        else ((Matrix.create n.toNat : Matrix α).randomize dis_B,
          (Matrix.create n.toNat : Matrix α).randomize dis_C)).2.size := by
      cases parse_print_flag (argv.getD 4 "") <;> rfl
    rw [calculate_expression_eq _ _ _ hsize] at he
    exact Except.noConfusion he
  · next result hr =>
    cases hp : parse_print_flag (argv.getD 4 "")
    · exact ⟨_, rfl, rfl, rfl⟩
    · exact ⟨_, rfl, rfl, rfl⟩

/-- C16 (counterexample): with the print flag `banana`, which in no letter case
is `true` or `false`, and otherwise valid arguments, `main` returns 0, not 1;
the flag is read as false and only the elapsed time is written. -/
theorem main_accepts_any_print_flag :
    "banana".toList.map Char.toLower ≠ "true".toList
    ∧ "banana".toList.map Char.toLower ≠ "false".toList
    ∧ parse_print_flag "banana" = false
    ∧ (main (fun k => k) (fun _ => (0 : Int)) (fun _ => 0)
        ["run", "2", "1", "simple", "banana"]).toOption.map Run.exit_code = some 0
    ∧ (main (fun k => k) (fun _ => (0 : Int)) (fun _ => 0)
        ["run", "2", "1", "simple", "banana"]).toOption.map (fun run => run.stdout.length)
        = some 1 :=
  ⟨by decide, by decide, by decide, rfl, rfl⟩

/-- C16 (amended): with five arguments of which `std::stoi` reads the order as
`n` and the parallel width as `t`, `main` returns, with exit code 1 exactly when
`n` is outside `1..4096`, `t ≤ 0` or the strategy name is none of `simple`,
`tasks`, `sections`, and with exit code 0 otherwise, whatever the print flag;
the flag is read as true exactly when its lower-cased text is `true` (then eight
items are written, else the time alone), so `TRUE` is true and `false` is
false; with any other number of arguments `main` returns 1. -/
theorem main_exit_code {α : Type} [CommRing α] (rand : Nat → Nat) (dis_B dis_C : Nat → α)
    (argv : List String) (n t : Int) (hlen : argv.length = 5)
    (h1 : stoi (argv.getD 1 "") = Except.ok n) (h2 : stoi (argv.getD 2 "") = Except.ok t) :
    (∃ run : Run α, main rand dis_B dis_C argv = Except.ok run
      ∧ (run.exit_code = 1 ↔ (n ≤ 0 ∨ n > 4096 ∨ t ≤ 0
          ∨ (argv.getD 3 "" ≠ "simple" ∧ argv.getD 3 "" ≠ "tasks"
            ∧ argv.getD 3 "" ≠ "sections")))
      ∧ (run.exit_code = 0 ↔ ¬ (n ≤ 0 ∨ n > 4096 ∨ t ≤ 0
          ∨ (argv.getD 3 "" ≠ "simple" ∧ argv.getD 3 "" ≠ "tasks"
            ∧ argv.getD 3 "" ≠ "sections")))
      ∧ (run.exit_code = 0 →
          run.stdout.length = if parse_print_flag (argv.getD 4 "") then 8 else 1))
    ∧ (∀ args : List String, args.length ≠ 5 →
        ∃ run : Run α, main rand dis_B dis_C args = Except.ok run ∧ run.exit_code = 1)
    ∧ parse_print_flag "TRUE" = true ∧ parse_print_flag "false" = false := by
  refine ⟨?_, ?_, by decide, by decide⟩
  · by_cases hn : n ≤ 0 ∨ n > 4096
    · refine ⟨(⟨1, [], ["Incorrect matrix size."]⟩ : Run α), ?_, ?_, ?_, ?_⟩
      · unfold main
        simp only [hlen, ne_eq, not_true_eq_false, if_false, h1, hn, if_true]
      · exact ⟨fun _ => by tauto, fun _ => rfl⟩
      · constructor
        · intro h; exact absurd h (show ¬ ((1 : Int) = 0) from by decide)
        · intro h; exact absurd (by tauto) h
      · intro h; exact absurd h (show ¬ ((1 : Int) = 0) from by decide)
    · by_cases ht : t ≤ 0
      · refine ⟨(⟨1, [], ["Incorrect threads count."]⟩ : Run α), ?_, ?_, ?_, ?_⟩
        · unfold main
          simp only [hlen, ne_eq, not_true_eq_false, if_false, h1, hn, h2, ht, if_true]
        · exact ⟨fun _ => by tauto, fun _ => rfl⟩
        · constructor
          · intro h; exact absurd h (show ¬ ((1 : Int) = 0) from by decide)
          · intro h; exact absurd (by tauto) h
        · intro h; exact absurd h (show ¬ ((1 : Int) = 0) from by decide)
      · by_cases hs : argv.getD 3 "" ≠ "simple" ∧ argv.getD 3 "" ≠ "tasks"
            ∧ argv.getD 3 "" ≠ "sections"
        · refine ⟨(⟨1, [], ["<calculation_type> one of: `simple`, `tasks`, `sections`"]⟩ : Run α),
            ?_, ?_, ?_, ?_⟩
          · unfold main
            simp only [hlen, ne_eq, not_true_eq_false, if_false, h1, hn, h2, ht]
            rw [if_pos hs]
          · exact ⟨fun _ => by tauto, fun _ => rfl⟩
          · constructor
            · intro h; exact absurd h (show ¬ ((1 : Int) = 0) from by decide)
            · intro h; exact absurd (by tauto) h
          · intro h; exact absurd h (show ¬ ((1 : Int) = 0) from by decide)
        · obtain ⟨run, hrun, hcode, hout⟩ :=
            main_valid rand dis_B dis_C argv n t hlen h1 h2 hn ht hs
          refine ⟨run, hrun, ?_, ?_, fun _ => hout⟩
          · rw [hcode]
            constructor
            · intro h; exact absurd h (show ¬ ((0 : Int) = 1) from by decide)
            · intro h; exfalso; tauto
          · constructor
            · intro _; tauto
            · intro _; exact hcode
  · intro args hargs
    have hm : main rand dis_B dis_C args = Except.ok ⟨1, [], ["Usage: " ++ args.getD 0 "" ++
        " <matrix_size: int> <threads_count: int> <calculation_type: str> <full_print_mode: bool>"]⟩ := by
      unfold main
      rw [if_pos hargs]
    exact ⟨_, hm, rfl⟩

/-- Witness of `main_exit_code`: order `5000`, read by `std::stoi`, is outside
`1..4096`. -/
theorem main_exit_code_witness :
    ["run", "5000", "2", "tasks", "TRUE"].length = 5
    ∧ stoi (["run", "5000", "2", "tasks", "TRUE"].getD 1 "") = Except.ok 5000
    ∧ stoi (["run", "5000", "2", "tasks", "TRUE"].getD 2 "") = Except.ok 2
    ∧ ∃ run : Run Int, main (fun k => k) (fun _ => 0) (fun _ => 0)
          ["run", "5000", "2", "tasks", "TRUE"] = Except.ok run
        ∧ (run.exit_code = 1 ↔ ((5000 : Int) ≤ 0 ∨ (5000 : Int) > 4096 ∨ (2 : Int) ≤ 0
          ∨ (["run", "5000", "2", "tasks", "TRUE"].getD 3 "" ≠ "simple"
            ∧ ["run", "5000", "2", "tasks", "TRUE"].getD 3 "" ≠ "tasks"
            ∧ ["run", "5000", "2", "tasks", "TRUE"].getD 3 "" ≠ "sections"))) :=
  ⟨rfl, rfl, rfl,
    (main_exit_code (fun k => k) (fun _ => (0 : Int)) (fun _ => 0)
      ["run", "5000", "2", "tasks", "TRUE"] 5000 2 rfl rfl rfl).1.imp
      (fun _ h => ⟨h.1, h.2.1⟩)⟩

/-! ## The identity product on `double` cells -/

theorem forLoop_congr {σ : Type} (n : Nat) (body1 body2 : Nat → σ → σ) (s : σ)
    (h : ∀ k, k < n → ∀ t, body1 k t = body2 k t) :
    forLoop n body1 s = forLoop n body2 s := by
  induction n with
  | zero => rfl
  | succ n ih =>
    rw [forLoop_succ, forLoop_succ, ih (fun k hk t => h k (by omega) t), h n (by omega)]

theorem Matrix.multiply_fold {α : Type} [Zero α] [One α] [Add α] [Mul α] (ct : Int)
    (X Y : Matrix α) (h : X.size = Y.size) :
    Matrix.multiply ct X Y = Except.ok ⟨X.size, table X.size (fun i j =>
      forLoop X.size (fun k sum => sum + getCell X.data i k * getCell Y.data k j) 0)⟩ := by
  have hlen : (Matrix.create X.size : Matrix α).data.length = X.size := by
    simp [Matrix.create]
  have hrow : ∀ row ∈ (Matrix.create X.size : Matrix α).data, row.length = X.size := by
    intro row hr
    simp only [Matrix.create] at hr
    rw [List.eq_of_mem_replicate hr, List.length_replicate]
  have hk := kernel_eq_table (fun i j (_ : α) =>
      forLoop X.size (fun k sum => sum + getCell X.data i k * getCell Y.data k j) 0)
    X.size (List.range X.size) (List.Perm.refl _) (Matrix.create X.size : Matrix α).data
    hlen hrow
  have hne : ¬ X.size ≠ Y.size := fun hn => hn h
  unfold Matrix.multiply Matrix.multiply_sched
  rw [if_neg hne]
  cases branch ct
  · exact congrArg (fun d => Except.ok (Matrix.mk X.size d)) hk
  · exact congrArg (fun d => Except.ok (Matrix.mk X.size d)) hk

theorem Matrix.identity_table {α : Type} [Zero α] [One α] [Add α] [Mul α] (n : Nat) :
    (Matrix.create n : Matrix α).set_identity
      = ⟨n, table n (fun i j => if i = j then 1 else 0)⟩ := by
  rw [create_eq_table]
  have hk := kernel_eq_table (fun i j (_ : α) => if i = j then (1 : α) else 0)
    n (List.range n) (List.Perm.refl _) (table n (fun _ _ => (0 : α)))
    (table_length _ _) (table_row_length _ _)
  exact congrArg (fun d => Matrix.mk n d) hk

theorem Dbl.fin_of_isFinite {β : Type} [Zero β] (c : Dbl β) (h : c.isFinite = true) :
    c = Dbl.fin c.value := by
  cases c with
  | fin x => rfl
  | pinf => exact Bool.noConfusion h
  | ninf => exact Bool.noConfusion h
  | nan => exact Bool.noConfusion h

theorem Matrix.cell_finite {β : Type} [LinearOrderedCommRing β] (M : Matrix (Dbl β))
    (hM : M.WF) (hfin : M.allFinite) (i j : Nat) (hi : i < M.size) (hj : j < M.size) :
    getCell M.data i j = Dbl.fin (getCell M.data i j).value := by
  have hi2 : i < M.data.length := by rw [hM.1]; exact hi
  have hrow : (M.data[i]).length = M.size := hM.2 _ (List.getElem_mem hi2)
  have hj2 : j < (M.data[i]).length := by rw [hrow]; exact hj
  have hget : getCell M.data i j = (M.data[i])[j] := by
    simp [getCell, List.getD_eq_getElem?_getD, List.getElem?_eq_getElem hi2,
      List.getElem?_eq_getElem hj2]
  apply Dbl.fin_of_isFinite
  rw [hget]
  exact hfin _ (List.getElem_mem hi2) _ (List.getElem_mem hj2)

/-- Row `i` of the identity times a column of finite values: the accumulation
stays finite and ends on entry `i` of the column. -/
theorem Dbl.identity_row_fold {β : Type} [LinearOrderedCommRing β] (i : Nat) (f : Nat → β)
    (m : Nat) :
    forLoop m (fun k (sum : Dbl β) =>
        sum + (if i = k then (1 : Dbl β) else 0) * Dbl.fin (f k)) 0
      = Dbl.fin (if i < m then f i else 0) := by
  induction m with
  | zero => rfl
  | succ m ih =>
    rw [forLoop_succ, ih]
    by_cases him : i = m
    · subst him
      rw [if_pos rfl, if_neg (Nat.lt_irrefl i), if_pos (Nat.lt_succ_self i)]
      show Dbl.fin (0 + 1 * f i) = Dbl.fin (f i)
      rw [one_mul, zero_add]
    · have hlt : i < m + 1 ↔ i < m := by omega
      rw [if_neg him]
      show Dbl.fin ((if i < m then f i else 0) + 0 * f m) = Dbl.fin (if i < m + 1 then f i else 0)
      simp only [hlt, zero_mul, add_zero]

/-- C6 (counterexample): on the matrix `[[1,2],[+inf,4]]` the product
`multiply(I_2, M)` has NaN in cell `(0, 0)`, where `1*1 + 0*inf` is accumulated,
so it is not `M`; on `Matrix(2, +inf)` every cell of the product is NaN. -/
theorem identity_product_infinite_cell :
    exInf.WF
    ∧ Matrix.multiply 1 (Matrix.create exInf.size : Matrix (Dbl Int)).set_identity exInf
        = Except.ok ⟨2, [[Dbl.nan, Dbl.fin 2], [Dbl.pinf, Dbl.fin 4]]⟩
    ∧ (⟨2, [[Dbl.nan, Dbl.fin 2], [Dbl.pinf, Dbl.fin 4]]⟩ : Matrix (Dbl Int)) ≠ exInf
    ∧ Matrix.multiply 1 (Matrix.create 2 : Matrix (Dbl Int)).set_identity
          (Matrix.createFilled 2 Dbl.pinf)
        = Except.ok ⟨2, [[Dbl.nan, Dbl.nan], [Dbl.nan, Dbl.nan]]⟩
    ∧ (⟨2, [[Dbl.nan, Dbl.nan], [Dbl.nan, Dbl.nan]]⟩ : Matrix (Dbl Int))
        ≠ Matrix.createFilled 2 Dbl.pinf :=
  ⟨by decide, rfl, by decide, rfl, by decide⟩

/-- C6 (amended): for a well-formed matrix `M` of order `n` whose cells are all
finite, in the model of `double` that keeps the infinities and NaN,
`multiply(I_n, M)` returns `M`, where `I_n` is `Matrix(n)` after `set_identity`,
under every strategy setting. -/
theorem multiply_identity_finite {β : Type} [LinearOrderedCommRing β] (ct : Int)
    (M : Matrix (Dbl β)) (hM : M.WF) (hfin : M.allFinite) :
    Matrix.multiply ct (Matrix.create M.size).set_identity M = Except.ok M := by
  have hmul := Matrix.multiply_fold ct
    (⟨M.size, table M.size (fun i j => if i = j then (1 : Dbl β) else 0)⟩ : Matrix (Dbl β))
    M rfl
  rw [Matrix.identity_table, hmul]
  have ht : table M.size (fun i j =>
      forLoop M.size (fun k sum => sum
        + getCell (table M.size (fun i j => if i = j then (1 : Dbl β) else 0)) i k
          * getCell M.data k j) 0) = M.data := by
    conv_rhs => rw [data_eq_table M.size M.data hM.1 hM.2]
    apply table_congr
    intro i j hi hj
    have hbody : ∀ k, k < M.size → ∀ t : Dbl β,
        t + getCell (table M.size (fun i j => if i = j then (1 : Dbl β) else 0)) i k
            * getCell M.data k j
          = t + (if i = k then (1 : Dbl β) else 0)
            * Dbl.fin ((fun k => (getCell M.data k j).value) k) := by
      intro k hk t
      rw [getCell_table _ _ i k hi hk, ← Matrix.cell_finite M hM hfin k j hk hj]
    rw [forLoop_congr M.size _ _ 0 hbody,
      Dbl.identity_row_fold i (fun k => (getCell M.data k j).value) M.size, if_pos hi]
    exact (Matrix.cell_finite M hM hfin i j hi hj).symm
  rw [ht]

/-- Witness of `multiply_identity_finite` at an order-2 matrix of finite cells. -/
theorem multiply_identity_finite_witness :
    exFin.WF ∧ exFin.allFinite
    ∧ Matrix.multiply 2 (Matrix.create exFin.size).set_identity exFin = Except.ok exFin :=
  ⟨by decide, by decide, multiply_identity_finite 2 exFin (by decide) (by decide)⟩

end Hpc
